import Mathlib

/-
  Verification of the session state manager in src/gui/state/loot_state.cpp.

  The C++ state is embedded shallowly:
  * `installedGames_` (the game registry) is a `List Game`;
  * `currentGame_` is stored as a position (`Nat`) into that list, following the
    source comment "As the current game is stored using its index, removing an
    earlier game may invalidate it"; the position `installedGames.length` plays
    the role of the `end` iterator;
  * the in-memory `LootSettings` store that `getGameSettings`/`storeGameSettings`
    read and write is the `storedGameSettings` field, together with a counter of
    `storeGameSettings` invocations;
  * C++ exceptions (`GameDetectionError`) and dereferences of an invalid
    iterator are modelled as an `Option LootError` component of each result.
-/

set_option maxRecDepth 8000

/-- Case-insensitive string equality, modelling `boost::iequals` (ASCII case
folding of each character, then exact comparison). -/
def iequals (a b : String) : Bool :=
  a.data.map Char.toLower == b.data.map Char.toLower

/-- One configured game descriptor, as produced by `getGameSettings()`:
the identity (`folderName`) plus the mutable fields that reconciliation
copies (lines 79-84 of loot_state.cpp). -/
structure GameSettings where
  folderName : String
  name : String
  master : Bool
  repoURL : String
  repoBranch : String
  gamePath : String
  registryKey : String
  deriving DecidableEq

/-- A live registry entry (`gui::Game`). Only the settings fields are
observable through the operations under verification. -/
structure Game where
  settings : GameSettings
  deriving DecidableEq

def Game.folderName (g : Game) : String := g.settings.folderName

/-- Modelled from the spec: the `gui::Game` constructor (declared outside this
translation unit) creates an entry carrying the descriptor's identity and
mutable configuration fields (spec section 3, GameEntry). -/
def mkGame (gs : GameSettings) : Game := ⟨gs⟩

/-- Modelled from the spec: `GameSettings::operator==`, used by the `find` on
line 76, is declared outside this translation unit; per the spec (section 4.1,
step a) matching is case-insensitive folder-name equality. -/
def matchesSettings (g : Game) (gs : GameSettings) : Bool :=
  iequals g.folderName gs.folderName

/-- The chained setters of lines 79-84: overwrite the six mutable fields in
place; the folder name (identity) is not touched. -/
def setGameSettings (g : Game) (gs : GameSettings) : Game :=
  ⟨⟨g.settings.folderName, gs.name, gs.master, gs.repoURL, gs.repoBranch,
    gs.gamePath, gs.registryKey⟩⟩

/-- Exact string membership in a list, modelling the
`std::unordered_set<string>::find` lookup of line 100. -/
def memStr (x : String) : List String → Bool
  | [] => false
  | y :: ys => x == y || memStr x ys

/-- No string occurs twice (exact comparison). -/
def distinctStrs : List String → Bool
  | [] => true
  | y :: ys => !(memStr y ys) && distinctStrs ys

/-- No two strings in the list are case-insensitively equal. -/
def noCIDup : List String → Bool
  | [] => true
  | y :: ys => ys.all (fun z => !(iequals y z)) && noCIDup ys

/-- `std::find_if` over the registry, returning the position of the first
match, or the list's length (the `end` position) when there is none. -/
def findIdxOrEnd (p : Game → Bool) : List Game → Nat
  | [] => 0
  | g :: gs => if p g then 0 else findIdxOrEnd p gs + 1

/-- First descriptor with exactly the given folder name. -/
def findSettingsByName (n : String) : List GameSettings → Option GameSettings
  | [] => none
  | gs :: rest => if gs.folderName == n then some gs else findSettingsByName n rest

/-- The `find` + in-place update of lines 76-84: locate the first registry
entry matching the descriptor and overwrite its mutable fields in place;
`none` when no entry matches. -/
def updateMatched (gs : GameSettings) : List Game → Option (List Game)
  | [] => none
  | g :: rest =>
    if matchesSettings g gs then some (setGameSettings g gs :: rest)
    else
      match updateMatched gs rest with
      | some rest' => some (g :: rest')
      | none => none

/-- The `find_if` + `SetGamePath` of lines 298-304: set the game path of the
first stored descriptor whose folder name matches case-insensitively; `none`
when the lookup fails (line 301). -/
def setStoredGamePath (folder path : String) : List GameSettings → Option (List GameSettings)
  | [] => none
  | gs :: rest =>
    if iequals folder gs.folderName then some ({ gs with gamePath := path } :: rest)
    else
      match setStoredGamePath folder path rest with
      | some rest' => some (gs :: rest')
      | none => none

/-- The data threaded through the update/append loop of `load` (lines 73-94):
the evolving registry, the in-memory stored settings, the number of
`storeGameSettings` calls and the "seen this pass" folder-name set. -/
structure PassState where
  games : List Game
  stored : List GameSettings
  storeCalls : Nat
  seen : List String
  deriving DecidableEq

/-- `LootState::updateStoredGamePathSetting` (lines 296-307): look the game's
folder up in the stored settings; on success write the game's path there and
store the updated sequence; on failure only log. -/
def updateStoredGamePathSetting (g : Game) (ps : PassState) : PassState :=
  match setStoredGamePath g.folderName g.settings.gamePath ps.stored with
  | some stored' => { ps with stored := stored', storeCalls := ps.storeCalls + 1 }
  | none => ps

/-- One iteration of the loop on lines 75-94: update a matched entry in place,
otherwise append a new entry when the probe reports the game installed (also
writing the path back to the stored settings), and record the descriptor's
folder name in the seen set in every case. -/
def processGameSetting (installed : GameSettings → Bool) (ps : PassState)
    (gs : GameSettings) : PassState :=
  let ps' :=
    match updateMatched gs ps.games with
    | some games' => { ps with games := games' }
    | none =>
      if installed gs then
        updateStoredGamePathSetting (mkGame gs) { ps with games := ps.games ++ [mkGame gs] }
      else ps
  { ps' with seen := ps'.seen ++ [gs.folderName] }

/-- The whole update/append loop, iterating the configured descriptors in
order. -/
def runSettingsPass (installed : GameSettings → Bool) :
    List GameSettings → PassState → PassState
  | [], ps => ps
  | gs :: rest, ps => runSettingsPass installed rest (processGameSetting installed ps gs)

/-- The removal loop of lines 99-105: a single pass erasing every entry whose
folder name is not in the seen set (exact string comparison via the
`unordered_set`); the relative order of survivors is preserved. -/
def removeDeleted (seen : List String) (games : List Game) : List Game :=
  games.filter (fun g => memStr g.folderName seen)

/-- The configuration input of `load`: the settings (`YAML::Node`) that
`LootSettings::load` reads, projected to the parts this file consumes —
the ordered game descriptors (`getGameSettings`), the configured default game
(`getGame`) and the last used game (`getLastGame`). -/
structure LootConfig where
  gameSettings : List GameSettings
  game : String
  lastGame : String
  deriving DecidableEq

/-- The session state: registry, current-game position
(`installedGames.length` is the `end` position), unapplied-change counter and
the in-memory settings store. -/
structure LootState where
  installedGames : List Game
  currentGame : Nat
  unappliedChangeCounter : Int
  storedGameSettings : List GameSettings
  storeCalls : Nat
  deriving DecidableEq

/-- The observable failures: the `GameDetectionError` thrown on line 282, and
a dereference of an invalid iterator position (undefined behaviour in the
C++). -/
inductive LootError where
  | noGameDetected
  | invalidDereference
  deriving DecidableEq

/-- The `LootState` constructor (line 62): counter zero,
`currentGame_ = installedGames_.end()`. -/
def LootState.initial : LootState := ⟨[], 0, 0, [], 0⟩

def autoSentinel : String := "auto"

def emptyStr : String := ""

/-- The preferred-game substitution block of lines 263-269: an empty argument
is replaced by the configured default game when it is not "auto", else by the
last used game when that is not "auto". -/
def effectivePreferred (cfg : LootConfig) (preferredGame : String) : String :=
  if preferredGame = emptyStr then
    if cfg.game ≠ autoSentinel then cfg.game
    else if cfg.lastGame ≠ autoSentinel then cfg.lastGame
    else preferredGame
  else preferredGame

/-- The `find_if` predicate of lines 272-274: an empty (substituted) preferred
name matches any entry, a non-empty one is compared by exact, case-sensitive
string equality. -/
def selPred (cfg : LootConfig) (preferredGame : String) (g : Game) : Bool :=
  effectivePreferred cfg preferredGame == emptyStr ||
    effectivePreferred cfg preferredGame == g.folderName

/-- The position `selectGame` computes: the first match of `selPred`, with
fallback to the first entry when the search reaches `end`. -/
def selIdx (cfg : LootConfig) (preferredGame : String) (games : List Game) : Nat :=
  if findIdxOrEnd (selPred cfg preferredGame) games = games.length then 0
  else findIdxOrEnd (selPred cfg preferredGame) games

/-- `LootState::selectGame` (lines 262-284): substitute the preferred game,
find the first entry it exactly equals (an empty preferred name matches the
first entry), fall back to the first entry when the search fails, and throw
`GameDetectionError` when the position is still `end` (empty registry). -/
def selectGame (cfg : LootConfig) (preferredGame : String) (s : LootState) :
    LootState × Option LootError :=
  if selIdx cfg preferredGame s.installedGames = s.installedGames.length then
    ({ s with currentGame := selIdx cfg preferredGame s.installedGames },
      some LootError.noGameDetected)
  else ({ s with currentGame := selIdx cfg preferredGame s.installedGames }, none)

/-- `LootState::changeGame` (lines 224-233): set the current game to the first
entry whose folder name matches case-insensitively, then call `Init` through
the iterator. When no entry matches, the iterator is `end` and the `Init`
call dereferences it — modelled as `invalidDereference`. -/
def changeGame (newGameFolder : String) (s : LootState) : LootState × Option LootError :=
  let i := findIdxOrEnd (fun g => iequals newGameFolder g.folderName) s.installedGames
  if i = s.installedGames.length then
    ({ s with currentGame := i }, some LootError.invalidDereference)
  else ({ s with currentGame := i }, none)

/-- `LootState::getCurrentGame` (lines 235-239): return `*currentGame_` with
no validity check; `none` models the dereference of an invalid position. -/
def getCurrentGame (s : LootState) : Option Game :=
  s.installedGames.get? s.currentGame

/-- `LootState::getInstalledGames` (lines 241-247). -/
def getInstalledGames (s : LootState) : List String :=
  s.installedGames.map Game.folderName

/-- `LootState::hasUnappliedChanges` (lines 249-251). -/
def hasUnappliedChanges (s : LootState) : Bool :=
  s.unappliedChangeCounter > 0

/-- `LootState::incrementUnappliedChangeCounter` (lines 253-255). -/
def incrementUnappliedChangeCounter (s : LootState) : LootState :=
  { s with unappliedChangeCounter := s.unappliedChangeCounter + 1 }

/-- `LootState::decrementUnappliedChangeCounter` (lines 257-260): guarded, so
decrementing at zero is a no-op. -/
def decrementUnappliedChangeCounter (s : LootState) : LootState :=
  if s.unappliedChangeCounter > 0 then
    { s with unappliedChangeCounter := s.unappliedChangeCounter - 1 }
  else s

/-- `LootState::load` (lines 64-115). `LootSettings::load(settings)` replaces
the in-memory settings with the input (modelled from the spec: the settings
loader is an external collaborator; `getGameSettings` then returns the input
descriptors). Then the update/append loop runs, deleted games are removed,
and the selection is recomputed via `selectGame` only when the stored
position equals the `end` position; otherwise `currentGame_->Init()` is
called through the possibly-shifted position, an invalid dereference when the
position lies beyond the new length. `Init` itself is an external per-entry
initialisation with no effect on the modelled fields. -/
def loadPass (installed : GameSettings → Bool) (cfg : LootConfig) (s : LootState) :
    PassState :=
  runSettingsPass installed cfg.gameSettings
    ⟨s.installedGames, cfg.gameSettings, s.storeCalls, []⟩

/-- The registry after reconciliation: the update/append loop followed by the
removal pass. -/
def loadGames (installed : GameSettings → Bool) (cfg : LootConfig) (s : LootState) :
    List Game :=
  removeDeleted (loadPass installed cfg s).seen (loadPass installed cfg s).games

/-- The session state after reconciliation, before the selection check of
line 107. -/
def loadInterim (installed : GameSettings → Bool) (cfg : LootConfig) (s : LootState) :
    LootState :=
  ⟨loadGames installed cfg s, s.currentGame, s.unappliedChangeCounter,
    (loadPass installed cfg s).stored, (loadPass installed cfg s).storeCalls⟩

def load (installed : GameSettings → Bool) (cfg : LootConfig) (s : LootState) :
    LootState × Option LootError :=
  if s.currentGame = (loadGames installed cfg s).length then
    selectGame cfg emptyStr (loadInterim installed cfg s)
  else if s.currentGame < (loadGames installed cfg s).length then
    (loadInterim installed cfg s, none)
  else (loadInterim installed cfg s, some LootError.invalidDereference)

/-- The preference chain exactly as claim C2 words it: `preferred` when
non-empty and case-insensitively matching some entry, else the configured
default when not "auto" and matching, else the last used game when not "auto"
and matching, else the first entry; `none` on an empty registry. -/
def claimChainIdx (preferred configuredDefault lastUsed : String)
    (games : List Game) : Option Nat :=
  match (if preferred ≠ emptyStr then
      (if findIdxOrEnd (fun g => iequals preferred g.folderName) games < games.length then
        some (findIdxOrEnd (fun g => iequals preferred g.folderName) games) else none)
    else none) with
  | some i => some i
  | none =>
    match (if configuredDefault ≠ autoSentinel then
        (if findIdxOrEnd (fun g => iequals configuredDefault g.folderName) games < games.length then
          some (findIdxOrEnd (fun g => iequals configuredDefault g.folderName) games) else none)
      else none) with
    | some i => some i
    | none =>
      match (if lastUsed ≠ autoSentinel then
          (if findIdxOrEnd (fun g => iequals lastUsed g.folderName) games < games.length then
            some (findIdxOrEnd (fun g => iequals lastUsed g.folderName) games) else none)
        else none) with
      | some i => some i
      | none => if games.isEmpty then none else some 0

/-- The update/append phase of reconciliation as claim C5 words it, acting on
the registry alone. -/
def claimUpdatePass (installed : GameSettings → Bool) :
    List GameSettings → List Game → List Game
  | [], games => games
  | gs :: rest, games =>
    claimUpdatePass installed rest
      (match updateMatched gs games with
       | some games' => games'
       | none => if installed gs then games ++ [mkGame gs] else games)

/-- Reconciliation as claim C5 states it, with the removal pass keyed on
case-insensitive identity membership among the configured descriptors. -/
def claimReconcileCI (installed : GameSettings → Bool) (c : List GameSettings)
    (games : List Game) : List Game :=
  (claimUpdatePass installed c games).filter
    (fun g => c.any (fun gs => iequals g.folderName gs.folderName))

/-- Reconciliation with the removal pass keyed on exact (case-sensitive)
folder-name membership among the configured descriptors — the amended form of
claim C5. -/
def claimReconcileExact (installed : GameSettings → Bool) (c : List GameSettings)
    (games : List Game) : List Game :=
  (claimUpdatePass installed c games).filter
    (fun g => c.any (fun gs => g.folderName == gs.folderName))

/-- Update an entry with the first configured descriptor bearing exactly its
folder name, if any. -/
def updByConfig (c : List GameSettings) (g : Game) : Game :=
  match findSettingsByName g.folderName c with
  | some gs => setGameSettings g gs
  | none => g

/-- The entries appended by one pass when no configured folder name collides
case-insensitively with another: the descriptors whose exact folder name is
not among `names` and which the probe reports installed, in order. -/
def appendsFor (installed : GameSettings → Bool) (names : List String) :
    List GameSettings → List Game
  | [] => []
  | gs :: rest =>
    if memStr gs.folderName names then appendsFor installed names rest
    else if installed gs then mkGame gs :: appendsFor installed names rest
    else appendsFor installed names rest

/-- The entries the update/append loop appends, for arbitrary inputs: a
descriptor is appended when no folder name in the evolving registry matches
it case-insensitively and the probe reports it installed; appended names join
the evolving name list. -/
def appendedGames (installed : GameSettings → Bool) :
    List GameSettings → List String → List Game
  | [], _ => []
  | gs :: rest, names =>
    if names.any (fun n => iequals n gs.folderName) then
      appendedGames installed rest names
    else if installed gs then
      mkGame gs :: appendedGames installed rest (names ++ [gs.folderName])
    else appendedGames installed rest names

/-- One path write-back into the stored settings, keeping the store unchanged
when the lookup fails. -/
def writeGamePath (st : List GameSettings) (g : Game) : List GameSettings :=
  match setStoredGamePath g.folderName g.settings.gamePath st with
  | some st' => st'
  | none => st

/-- All path write-backs performed for a list of appended games, in order. -/
def writeAll (st : List GameSettings) : List Game → List GameSettings
  | [] => st
  | g :: rest => writeAll (writeGamePath st g) rest

/-- The states reachable through the public operations, starting from the
constructed state. -/
inductive Reachable : LootState → Prop where
  | initial : Reachable LootState.initial
  | loadStep : ∀ installed cfg s, Reachable s → Reachable (load installed cfg s).1
  | changeStep : ∀ n s, Reachable s → Reachable (changeGame n s).1
  | selectStep : ∀ cfg p s, Reachable s → Reachable (selectGame cfg p s).1
  | incStep : ∀ s, Reachable s → Reachable (incrementUnappliedChangeCounter s)
  | decStep : ∀ s, Reachable s → Reachable (decrementUnappliedChangeCounter s)

/- Concrete data for the counterexamples and evaluations. -/

/-- A descriptor with the given folder name and all other fields empty. -/
def plainSettings (n : String) : GameSettings := ⟨n, n, false, emptyStr, emptyStr, emptyStr, emptyStr⟩

def skyrimLower : GameSettings := plainSettings "Skyrim"

def skyrimUpper : GameSettings := plainSettings "SKYRIM"

def settingsA : GameSettings := plainSettings "GameA"

def settingsB : GameSettings := plainSettings "GameB"

def settingsC : GameSettings := plainSettings "GameC"

def allInstalled : GameSettings → Bool := fun _ => true

/-- A configuration whose preference fields are both the "auto" sentinel. -/
def autoConfig (c : List GameSettings) : LootConfig := ⟨c, autoSentinel, autoSentinel⟩

/-- A registry holding one entry with identity "Skyrim", freshly selected. -/
def stateOneSkyrim : LootState := ⟨[mkGame skyrimLower], 0, 0, [], 0⟩

/-- A configuration listing the same game with upper-case identity "SKYRIM". -/
def upperConfig : LootConfig := autoConfig [skyrimUpper]

/-- A registry {GameA, GameB, GameC} with GameB currently selected. -/
def stateABC : LootState :=
  ⟨[mkGame settingsA, mkGame settingsB, mkGame settingsC], 1, 0, [], 0⟩

/-- A configuration keeping GameA and GameC only. -/
def configAC : LootConfig := autoConfig [settingsA, settingsC]

/-- A registry {GameA, Skyrim} with GameA currently selected. -/
def stateASky : LootState := ⟨[mkGame settingsA, mkGame skyrimLower], 0, 0, [], 0⟩

/-- A configuration whose default game is GameC and last-used game is GameB. -/
def configDefC : LootConfig := ⟨[], "GameC", "GameB"⟩

/-- A registry {GameA, GameB} with GameA currently selected. -/
def stateAB : LootState := ⟨[mkGame settingsA, mkGame settingsB], 0, 0, [], 0⟩

/-- A registry {GameA, GameB} with GameB currently selected. -/
def stateAB1 : LootState := ⟨[mkGame settingsA, mkGame settingsB], 1, 0, [], 0⟩

/-- A configuration keeping GameA only. -/
def configOnlyA : LootConfig := autoConfig [settingsA]

/-- A probe reporting only GameA installed. -/
def onlyAInstalled : GameSettings → Bool := fun gs => gs.folderName == settingsA.folderName

/-- A configuration keeping GameA and GameB. -/
def configAB : LootConfig := autoConfig [settingsA, settingsB]

theorem iequals_refl (a : String) : iequals a a = true := by
  simp [iequals]

theorem iequals_symm (a b : String) : iequals a b = iequals b a := by
  simp only [iequals]
  by_cases h : a.data.map Char.toLower = b.data.map Char.toLower
  · rw [h]
  · have h' : ¬ b.data.map Char.toLower = a.data.map Char.toLower := fun hh => h hh.symm
    simp [h, h']

theorem iequals_of_eq {a b : String} (h : a = b) : iequals a b = true := by
  subst h; exact iequals_refl a

theorem iequals_trans {a b c : String} (h1 : iequals a b = true)
    (h2 : iequals b c = true) : iequals a c = true := by
  simp only [iequals, beq_iff_eq] at h1 h2 ⊢
  exact h1.trans h2

theorem mkGame_folderName (gs : GameSettings) : (mkGame gs).folderName = gs.folderName := rfl

theorem setGameSettings_folderName (g : Game) (gs : GameSettings) :
    (setGameSettings g gs).folderName = g.folderName := rfl

theorem setGameSettings_idem (g : Game) (gs : GameSettings) :
    setGameSettings (setGameSettings g gs) gs = setGameSettings g gs := rfl

theorem setGameSettings_mkGame (gs : GameSettings) :
    setGameSettings (mkGame gs) gs = mkGame gs := rfl

theorem matchesSettings_of_eq {g : Game} {gs : GameSettings}
    (h : g.folderName = gs.folderName) : matchesSettings g gs = true :=
  iequals_of_eq h

theorem memStr_iff {x : String} {l : List String} : memStr x l = true ↔ x ∈ l := by
  induction l with
  | nil => simp [memStr]
  | cons y ys ih => simp [memStr, ih, List.mem_cons]

theorem memStr_map_any {x : String} (l : List GameSettings) :
    memStr x (l.map GameSettings.folderName) =
      l.any (fun gs => x == gs.folderName) := by
  induction l with
  | nil => rfl
  | cons y ys ih => simp [memStr, List.any_cons, ih]

theorem findIdxOrEnd_le_length (p : Game → Bool) (l : List Game) :
    findIdxOrEnd p l ≤ l.length := by
  induction l with
  | nil => simp [findIdxOrEnd]
  | cons g gs ih =>
    cases h : p g
    · simp only [findIdxOrEnd, h, Bool.false_eq_true, if_false, List.length_cons]
      omega
    · simp [findIdxOrEnd, h]

theorem findIdxOrEnd_eq_length_iff (p : Game → Bool) (l : List Game) :
    findIdxOrEnd p l = l.length ↔ ∀ g ∈ l, p g = false := by
  induction l with
  | nil => simp [findIdxOrEnd]
  | cons g gs ih =>
    cases h : p g with
    | true =>
      simp only [findIdxOrEnd, h, if_true, List.length_cons]
      constructor
      · intro hh
        exact absurd hh (by omega)
      · intro hh
        exact absurd (hh g (List.mem_cons_self g gs)) (by simp [h])
    | false =>
      simp only [findIdxOrEnd, h, Bool.false_eq_true, if_false, List.length_cons]
      constructor
      · intro hh x hx
        rcases List.mem_cons.mp hx with rfl | hx'
        · exact h
        · exact (ih.mp (by omega)) x hx'
      · intro hh
        have : findIdxOrEnd p gs = gs.length :=
          ih.mpr (fun x hx => hh x (List.mem_cons_of_mem g hx))
        omega

theorem findIdxOrEnd_get (p : Game → Bool) (l : List Game)
    (h : findIdxOrEnd p l < l.length) :
    ∃ g, l.get? (findIdxOrEnd p l) = some g ∧ p g = true := by
  induction l with
  | nil => simp [findIdxOrEnd] at h
  | cons g gs ih =>
    cases hpg : p g with
    | true => exact ⟨g, by simp [findIdxOrEnd, hpg], hpg⟩
    | false =>
      simp only [findIdxOrEnd, hpg, Bool.false_eq_true, if_false, List.length_cons] at h ⊢
      have h' : findIdxOrEnd p gs < gs.length := by omega
      obtain ⟨g', hg', hp'⟩ := ih h'
      exact ⟨g', by simpa using hg', hp'⟩

theorem findIdxOrEnd_eq_of_first (p : Game → Bool) (l : List Game) (j : Nat) (g : Game)
    (hg : l.get? j = some g) (hp : p g = true)
    (hmin : ∀ k g', k < j → l.get? k = some g' → p g' = false) :
    findIdxOrEnd p l = j := by
  induction l generalizing j with
  | nil => simp at hg
  | cons a as ih =>
    cases j with
    | zero =>
      simp only [List.get?_cons_zero, Option.some_inj] at hg
      subst hg
      simp [findIdxOrEnd, hp]
    | succ j' =>
      have ha : p a = false := hmin 0 a (Nat.succ_pos j') (by simp)
      simp only [findIdxOrEnd, ha, Bool.false_eq_true, if_false]
      have := ih j' (by simpa using hg)
        (fun k g' hk hget => hmin (k + 1) g' (by omega) (by simpa using hget))
      omega

theorem selPred_of_empty (cfg : LootConfig) (p : String)
    (h : effectivePreferred cfg p = emptyStr) (g : Game) :
    selPred cfg p g = true := by
  simp [selPred, h]

theorem selPred_iff_of_ne (cfg : LootConfig) (p : String)
    (h : effectivePreferred cfg p ≠ emptyStr) (g : Game) :
    selPred cfg p g = true ↔ g.folderName = effectivePreferred cfg p := by
  simp only [selPred, Bool.or_eq_true, beq_iff_eq]
  constructor
  · rintro (hh | hh)
    · exact absurd hh h
    · exact hh.symm
  · intro hh
    exact Or.inr hh.symm

theorem selIdx_lt_length (cfg : LootConfig) (p : String) (games : List Game)
    (h : games ≠ []) : selIdx cfg p games < games.length := by
  have hle := findIdxOrEnd_le_length (selPred cfg p) games
  have hlen : 0 < games.length := List.length_pos.mpr h
  simp only [selIdx]
  by_cases h0 : findIdxOrEnd (selPred cfg p) games = games.length
  · simp [h0]; omega
  · simp [h0]; omega

theorem selIdx_nil (cfg : LootConfig) (p : String) : selIdx cfg p [] = 0 := by
  simp [selIdx, findIdxOrEnd]

theorem selectGame_installedGames (cfg : LootConfig) (p : String) (s : LootState) :
    (selectGame cfg p s).1.installedGames = s.installedGames := by
  simp only [selectGame]
  split <;> rfl

theorem selectGame_counter (cfg : LootConfig) (p : String) (s : LootState) :
    (selectGame cfg p s).1.unappliedChangeCounter = s.unappliedChangeCounter := by
  simp only [selectGame]
  split <;> rfl

theorem selectGame_stored (cfg : LootConfig) (p : String) (s : LootState) :
    (selectGame cfg p s).1.storedGameSettings = s.storedGameSettings := by
  simp only [selectGame]
  split <;> rfl

theorem selectGame_storeCalls (cfg : LootConfig) (p : String) (s : LootState) :
    (selectGame cfg p s).1.storeCalls = s.storeCalls := by
  simp only [selectGame]
  split <;> rfl

theorem selectGame_currentGame (cfg : LootConfig) (p : String) (s : LootState) :
    (selectGame cfg p s).1.currentGame = selIdx cfg p s.installedGames := by
  simp only [selectGame]
  split <;> rfl

theorem selectGame_snd (cfg : LootConfig) (p : String) (s : LootState) :
    (selectGame cfg p s).2 =
      if s.installedGames = [] then some LootError.noGameDetected else none := by
  simp only [selectGame]
  by_cases hnil : s.installedGames = []
  · rw [if_pos hnil, if_pos]
    rw [hnil, selIdx_nil]
    rfl
  · rw [if_neg hnil, if_neg]
    exact Nat.ne_of_lt (selIdx_lt_length cfg p s.installedGames hnil)

theorem selectGame_cur_lt (cfg : LootConfig) (p : String) (s : LootState)
    (h : s.installedGames ≠ []) :
    (selectGame cfg p s).1.currentGame < s.installedGames.length := by
  rw [selectGame_currentGame]
  exact selIdx_lt_length cfg p s.installedGames h

/-- Claim C6: on an empty registry, selection fails with the
`GameDetectionError` (`NoGameDetected`) thrown on line 282 and that is its
only failure path — for every non-empty registry and every preference input
the selection succeeds, leaving a valid position. -/
theorem c6_selection_failure (cfg : LootConfig) (p : String) (s : LootState) :
    ((selectGame cfg p s).2 = some LootError.noGameDetected ↔ s.installedGames = []) ∧
    (s.installedGames ≠ [] → (selectGame cfg p s).2 = none ∧
      (selectGame cfg p s).1.currentGame < s.installedGames.length) := by
  constructor
  · rw [selectGame_snd]
    by_cases hnil : s.installedGames = [] <;> simp [hnil]
  · intro h
    refine ⟨?_, selectGame_cur_lt cfg p s h⟩
    rw [selectGame_snd, if_neg h]

/-- Claim C6 witness: for a concrete empty registry the error is
`NoGameDetected`, and for a concrete one-entry registry selection succeeds. -/
theorem c6_witness :
    ((selectGame (autoConfig []) emptyStr LootState.initial).2 =
        some LootError.noGameDetected ↔ LootState.initial.installedGames = []) ∧
    ((selectGame (autoConfig []) emptyStr stateOneSkyrim).2 = none ∧
      (selectGame (autoConfig []) emptyStr stateOneSkyrim).1.currentGame <
        stateOneSkyrim.installedGames.length) :=
  ⟨(c6_selection_failure (autoConfig []) emptyStr LootState.initial).1,
    (c6_selection_failure (autoConfig []) emptyStr stateOneSkyrim).2 (by decide)⟩

/-- Claim C2, amended. The selection algorithm computes one candidate by
substitution — the caller's preferred name when non-empty, else the
configured default when not "auto" (whether or not it matches an entry),
else the last-used game when not "auto", else the empty string — and then
selects the first entry whose identity equals that candidate by exact,
case-sensitive comparison; when the candidate is empty or matches no entry,
the first entry in registry order is selected. -/
theorem c2_amended (cfg : LootConfig) (p : String) (s : LootState) :
    (effectivePreferred cfg p =
      (if p = emptyStr then
        if cfg.game ≠ autoSentinel then cfg.game
        else if cfg.lastGame ≠ autoSentinel then cfg.lastGame
        else emptyStr
      else p)) ∧
    (∀ j g, s.installedGames.get? j = some g →
      g.folderName = effectivePreferred cfg p →
      (∀ k g', k < j → s.installedGames.get? k = some g' →
        g'.folderName ≠ effectivePreferred cfg p) →
      effectivePreferred cfg p ≠ emptyStr →
      (selectGame cfg p s).1.currentGame = j) ∧
    ((effectivePreferred cfg p = emptyStr ∨
        ∀ g ∈ s.installedGames, g.folderName ≠ effectivePreferred cfg p) →
      (selectGame cfg p s).1.currentGame = 0) := by
  refine ⟨?_, ?_, ?_⟩
  · simp only [effectivePreferred]
    by_cases hp : p = emptyStr <;> simp [hp]
  · intro j g hget hname hmin hne
    rw [selectGame_currentGame]
    have hfind : findIdxOrEnd (selPred cfg p) s.installedGames = j := by
      apply findIdxOrEnd_eq_of_first (selPred cfg p) s.installedGames j g hget
      · exact (selPred_iff_of_ne cfg p hne g).mpr hname
      · intro k g' hk hget'
        have := hmin k g' hk hget'
        rcases hb : selPred cfg p g' with _ | _
        · rfl
        · exact absurd ((selPred_iff_of_ne cfg p hne g').mp hb) this
    have hjlt : j < s.installedGames.length := by
      have := List.get?_eq_some.mp hget
      exact this.1
    simp only [selIdx, hfind]
    rw [if_neg (by omega)]
  · intro h
    rcases h with hemp | hnone
    · by_cases hnil : s.installedGames = []
      · rw [selectGame_currentGame, hnil, selIdx_nil]
      · rw [selectGame_currentGame]
        simp only [selIdx]
        have hfind : findIdxOrEnd (selPred cfg p) s.installedGames = 0 := by
          obtain ⟨g, gs, hL⟩ := List.exists_cons_of_ne_nil hnil
          rw [hL]
          simp [findIdxOrEnd, selPred_of_empty cfg p hemp]
        rw [hfind]
        by_cases h0 : (0 : Nat) = s.installedGames.length <;> simp [h0]
    · rw [selectGame_currentGame]
      simp only [selIdx]
      by_cases hemp : effectivePreferred cfg p = emptyStr
      · by_cases hnil : s.installedGames = []
        · rw [hnil]
          simp [findIdxOrEnd]
        · have hfind : findIdxOrEnd (selPred cfg p) s.installedGames = 0 := by
            obtain ⟨g, gs, hL⟩ := List.exists_cons_of_ne_nil hnil
            rw [hL]
            simp [findIdxOrEnd, selPred_of_empty cfg p hemp]
          rw [hfind]
          by_cases h0 : (0 : Nat) = s.installedGames.length <;> simp [h0]
      · have hall : ∀ g ∈ s.installedGames, selPred cfg p g = false := by
          intro g hg
          rcases hb : selPred cfg p g with _ | _
          · rfl
          · exact absurd ((selPred_iff_of_ne cfg p hemp g).mp hb) (hnone g hg)
        rw [(findIdxOrEnd_eq_length_iff (selPred cfg p) s.installedGames).mpr hall]
        simp

/-- Claim C2 witness: on the registry {GameA, GameB} with last-used game
"GameB" and default "auto", the candidate is "GameB" and the entry at
position 1 is selected. -/
theorem c2_witness :
    (selectGame ⟨[], autoSentinel, "GameB"⟩ emptyStr stateAB).1.currentGame = 1 :=
  (c2_amended ⟨[], autoSentinel, "GameB"⟩ emptyStr stateAB).2.1 1 (mkGame settingsB)
    (by decide) (by decide)
    (by
      intro k g' hk hget
      have hk0 : k = 0 := Nat.lt_one_iff.mp hk
      subst hk0
      have hg' : mkGame settingsA = g' := by
        simpa [stateAB] using hget
      subst hg'
      decide)
    (by decide)

theorem load_installedGames (installed : GameSettings → Bool) (cfg : LootConfig)
    (s : LootState) :
    (load installed cfg s).1.installedGames = loadGames installed cfg s := by
  simp only [load]
  split
  · rw [selectGame_installedGames]
    rfl
  · split <;> rfl

theorem load_counter (installed : GameSettings → Bool) (cfg : LootConfig) (s : LootState) :
    (load installed cfg s).1.unappliedChangeCounter = s.unappliedChangeCounter := by
  simp only [load]
  split
  · rw [selectGame_counter]
    rfl
  · split <;> rfl

theorem load_stored (installed : GameSettings → Bool) (cfg : LootConfig) (s : LootState) :
    (load installed cfg s).1.storedGameSettings = (loadPass installed cfg s).stored := by
  simp only [load]
  split
  · rw [selectGame_stored]
    rfl
  · split <;> rfl

theorem load_storeCalls (installed : GameSettings → Bool) (cfg : LootConfig) (s : LootState) :
    (load installed cfg s).1.storeCalls = (loadPass installed cfg s).storeCalls := by
  simp only [load]
  split
  · rw [selectGame_storeCalls]
    rfl
  · split <;> rfl

theorem load_currentGame_eq (installed : GameSettings → Bool) (cfg : LootConfig)
    (s : LootState) :
    (load installed cfg s).1.currentGame =
      if s.currentGame = (loadGames installed cfg s).length then
        selIdx cfg emptyStr (loadGames installed cfg s)
      else s.currentGame := by
  simp only [load]
  split
  next h =>
    rw [selectGame_currentGame]
    rfl
  next h => split <;> rfl

theorem load_snd_eq (installed : GameSettings → Bool) (cfg : LootConfig) (s : LootState) :
    (load installed cfg s).2 =
      if s.currentGame = (loadGames installed cfg s).length then
        (if loadGames installed cfg s = [] then some LootError.noGameDetected else none)
      else if s.currentGame < (loadGames installed cfg s).length then none
      else some LootError.invalidDereference := by
  simp only [load]
  split
  next h =>
    rw [selectGame_snd]
    rfl
  next h => split <;> rfl

/-- Claim C1, amended. After `load`, the selection is recomputed via the
selection algorithm exactly when the stored position equals the length of
the reconciled registry (the `end` check of line 107); in every other case
the position is left unchanged, so removing entries can leave it silently
denoting a different entry, and a position beyond the new length is
dereferenced invalidly by the `Init` call of line 113. Whenever `load`
returns without error, the selection is a valid position. -/
theorem c1_amended (installed : GameSettings → Bool) (cfg : LootConfig) (s : LootState) :
    ((load installed cfg s).1.currentGame =
      if s.currentGame = (load installed cfg s).1.installedGames.length then
        (selectGame cfg emptyStr (load installed cfg s).1).1.currentGame
      else s.currentGame) ∧
    ((load installed cfg s).2 =
      if s.currentGame = (load installed cfg s).1.installedGames.length then
        (if (load installed cfg s).1.installedGames = [] then
          some LootError.noGameDetected
        else none)
      else if s.currentGame < (load installed cfg s).1.installedGames.length then none
      else some LootError.invalidDereference) ∧
    ((load installed cfg s).2 = none →
      (load installed cfg s).1.currentGame <
        (load installed cfg s).1.installedGames.length) := by
  refine ⟨?_, ?_, ?_⟩
  · rw [load_installedGames, load_currentGame_eq, selectGame_currentGame,
      load_installedGames]
  · rw [load_installedGames, load_snd_eq]
  · intro h
    rw [load_snd_eq] at h
    rw [load_installedGames, load_currentGame_eq]
    by_cases h1 : s.currentGame = (loadGames installed cfg s).length
    · rw [if_pos h1] at h ⊢
      by_cases h2 : loadGames installed cfg s = []
      · rw [if_pos h2] at h
        exact absurd h (by simp)
      · exact selIdx_lt_length cfg emptyStr (loadGames installed cfg s) h2
    · rw [if_neg h1] at h ⊢
      by_cases h2 : s.currentGame < (loadGames installed cfg s).length
      · exact h2
      · rw [if_neg h2] at h
        exact absurd h (by simp)

/-- Claim C1 witness: a successful concrete `load` leaves a valid selection
position. -/
theorem c1_witness :
    (load allInstalled configAC stateABC).1.currentGame <
      (load allInstalled configAC stateABC).1.installedGames.length :=
  (c1_amended allInstalled configAC stateABC).2.2 (by decide)

theorem changeGame_counter (n : String) (s : LootState) :
    (changeGame n s).1.unappliedChangeCounter = s.unappliedChangeCounter := by
  simp only [changeGame]
  split <;> rfl

/-- Claim C9: the unapplied-change counter is non-negative in every reachable
state; decrementing at zero is a no-op; `hasUnappliedChanges` holds exactly
when the counter is positive; and from the initial state three increments
followed by two decrements leave the counter at one. -/
theorem c9_counter (s : LootState) (hs : Reachable s) :
    0 ≤ s.unappliedChangeCounter ∧
    (s.unappliedChangeCounter = 0 → decrementUnappliedChangeCounter s = s) ∧
    (hasUnappliedChanges s = true ↔ 0 < s.unappliedChangeCounter) ∧
    (decrementUnappliedChangeCounter (decrementUnappliedChangeCounter
      (incrementUnappliedChangeCounter (incrementUnappliedChangeCounter
        (incrementUnappliedChangeCounter LootState.initial))))).unappliedChangeCounter = 1 := by
  refine ⟨?_, ?_, ?_, ?_⟩
  · induction hs with
    | initial => simp [LootState.initial]
    | loadStep installed cfg s hr ih =>
      rw [load_counter]
      exact ih
    | changeStep n s hr ih =>
      rw [changeGame_counter]
      exact ih
    | selectStep cfg p s hr ih =>
      rw [selectGame_counter]
      exact ih
    | incStep s hr ih =>
      simp only [incrementUnappliedChangeCounter]
      omega
    | decStep s hr ih =>
      simp only [decrementUnappliedChangeCounter]
      split
      · simp
        omega
      · exact ih
  · intro h0
    simp [decrementUnappliedChangeCounter, h0]
  · simp [hasUnappliedChanges]
  · decide

/-- Claim C9 witness: the theorem applied at the initial (constructed)
state. -/
theorem c9_witness :
    0 ≤ LootState.initial.unappliedChangeCounter ∧
    (LootState.initial.unappliedChangeCounter = 0 →
      decrementUnappliedChangeCounter LootState.initial = LootState.initial) ∧
    (hasUnappliedChanges LootState.initial = true ↔
      0 < LootState.initial.unappliedChangeCounter) ∧
    (decrementUnappliedChangeCounter (decrementUnappliedChangeCounter
      (incrementUnappliedChangeCounter (incrementUnappliedChangeCounter
        (incrementUnappliedChangeCounter LootState.initial))))).unappliedChangeCounter = 1 :=
  c9_counter LootState.initial Reachable.initial

theorem updateStored_games (g : Game) (ps : PassState) :
    (updateStoredGamePathSetting g ps).games = ps.games := by
  simp only [updateStoredGamePathSetting]
  split <;> rfl

theorem updateStored_seen (g : Game) (ps : PassState) :
    (updateStoredGamePathSetting g ps).seen = ps.seen := by
  simp only [updateStoredGamePathSetting]
  split <;> rfl

theorem processGameSetting_seen (installed : GameSettings → Bool) (ps : PassState)
    (gs : GameSettings) :
    (processGameSetting installed ps gs).seen = ps.seen ++ [gs.folderName] := by
  rcases hm : updateMatched gs ps.games with _ | games'
  · by_cases hi : installed gs <;>
      simp [processGameSetting, hm, hi, updateStored_seen]
  · simp [processGameSetting, hm]

theorem processGameSetting_games (installed : GameSettings → Bool) (ps : PassState)
    (gs : GameSettings) :
    (processGameSetting installed ps gs).games =
      (match updateMatched gs ps.games with
       | some games' => games'
       | none => if installed gs then ps.games ++ [mkGame gs] else ps.games) := by
  rcases hm : updateMatched gs ps.games with _ | games'
  · by_cases hi : installed gs <;>
      simp [processGameSetting, hm, hi, updateStored_games]
  · simp [processGameSetting, hm]

theorem runSettingsPass_seen (installed : GameSettings → Bool) (c : List GameSettings) :
    ∀ ps : PassState, (runSettingsPass installed c ps).seen =
      ps.seen ++ c.map GameSettings.folderName := by
  induction c with
  | nil => intro ps; simp [runSettingsPass]
  | cons gs rest ih =>
    intro ps
    simp only [runSettingsPass, List.map_cons]
    rw [ih, processGameSetting_seen]
    simp

theorem runSettingsPass_games (installed : GameSettings → Bool) (c : List GameSettings) :
    ∀ ps : PassState, (runSettingsPass installed c ps).games =
      claimUpdatePass installed c ps.games := by
  induction c with
  | nil => intro ps; rfl
  | cons gs rest ih =>
    intro ps
    simp only [runSettingsPass, claimUpdatePass]
    rw [ih, processGameSetting_games]

theorem removeDeleted_filter_any (c : List GameSettings) (games : List Game) :
    removeDeleted (c.map GameSettings.folderName) games =
      games.filter (fun g => c.any (fun gs => g.folderName == gs.folderName)) := by
  simp only [removeDeleted]
  apply List.filter_congr
  intro g hg
  exact memStr_map_any c

/-- Claim C5, amended. Reconciliation follows the claimed steps — in-place
update of the first case-insensitively matching entry, append of unmatched
descriptors exactly when the probe reports them installed, then a single
order-preserving removal pass — except that the removal pass keeps an entry
only when its stored folder name is exactly (case-sensitively) equal to some
configured descriptor's folder name, so an entry matched under a different
capitalisation is updated in place and then removed. -/
theorem c5_amended (installed : GameSettings → Bool) (cfg : LootConfig) (s : LootState) :
    (load installed cfg s).1.installedGames =
      claimReconcileExact installed cfg.gameSettings s.installedGames := by
  rw [load_installedGames]
  simp only [loadGames, loadPass]
  rw [runSettingsPass_seen, runSettingsPass_games]
  simp only [List.nil_append]
  exact removeDeleted_filter_any cfg.gameSettings
    (claimUpdatePass installed cfg.gameSettings s.installedGames)

theorem updateMatched_names (gs : GameSettings) :
    ∀ G G' : List Game, updateMatched gs G = some G' →
      G'.map Game.folderName = G.map Game.folderName := by
  intro G
  induction G with
  | nil =>
    intro G' h
    simp [updateMatched] at h
  | cons g rest ih =>
    intro G' h
    cases hm : matchesSettings g gs with
    | true =>
      simp only [updateMatched, hm, if_true] at h
      obtain rfl := Option.some_inj.mp h
      simp [setGameSettings_folderName]
    | false =>
      rcases hr : updateMatched gs rest with _ | rest'
      · simp [updateMatched, hm, hr] at h
      · simp only [updateMatched, hm, Bool.false_eq_true, if_false, hr] at h
        obtain rfl := Option.some_inj.mp h
        simp [ih rest' hr]

theorem updateMatched_isSome (gs : GameSettings) (G : List Game) :
    (updateMatched gs G).isSome = G.any (fun g => matchesSettings g gs) := by
  induction G with
  | nil => simp [updateMatched]
  | cons g rest ih =>
    cases hm : matchesSettings g gs with
    | true => simp [updateMatched, hm]
    | false =>
      rcases hr : updateMatched gs rest with _ | rest' <;>
        simp_all [updateMatched, hm, hr]

theorem anyNames_eq (G : List Game) (gs : GameSettings) :
    (G.map Game.folderName).any (fun n => iequals n gs.folderName) =
      G.any (fun g => matchesSettings g gs) := by
  induction G with
  | nil => rfl
  | cons g rest ih => simp [List.any_cons, ih, matchesSettings]

theorem setStoredGamePath_names (f p : String) :
    ∀ st st' : List GameSettings, setStoredGamePath f p st = some st' →
      st'.map GameSettings.folderName = st.map GameSettings.folderName := by
  intro st
  induction st with
  | nil =>
    intro st' h
    simp [setStoredGamePath] at h
  | cons x rest ih =>
    intro st' h
    cases hm : iequals f x.folderName with
    | true =>
      simp only [setStoredGamePath, hm, if_true] at h
      obtain rfl := Option.some_inj.mp h
      simp
    | false =>
      rcases hr : setStoredGamePath f p rest with _ | rest'
      · simp [setStoredGamePath, hm, hr] at h
      · simp only [setStoredGamePath, hm, Bool.false_eq_true, if_false, hr] at h
        obtain rfl := Option.some_inj.mp h
        simp [ih rest' hr]

theorem setStoredGamePath_isSome (f p : String) (st : List GameSettings) :
    (setStoredGamePath f p st).isSome = st.any (fun d => iequals f d.folderName) := by
  induction st with
  | nil => simp [setStoredGamePath]
  | cons x rest ih =>
    cases hm : iequals f x.folderName with
    | true => simp [setStoredGamePath, hm]
    | false =>
      rcases hr : setStoredGamePath f p rest with _ | rest' <;>
        simp_all [setStoredGamePath, hm, hr]

theorem setStoredGamePath_get? (f p : String) :
    ∀ st st' : List GameSettings, setStoredGamePath f p st = some st' →
      ∀ i d, st.get? i = some d → iequals f d.folderName = false →
        st'.get? i = some d := by
  intro st
  induction st with
  | nil =>
    intro st' h
    simp [setStoredGamePath] at h
  | cons x rest ih =>
    intro st' h i d hget hne
    cases hm : iequals f x.folderName with
    | true =>
      simp only [setStoredGamePath, hm, if_true] at h
      obtain rfl := Option.some_inj.mp h
      cases i with
      | zero =>
        simp only [List.get?_cons_zero, Option.some_inj] at hget
        subst hget
        rw [hm] at hne
        exact absurd hne (by simp)
      | succ i' => simpa using hget
    | false =>
      rcases hr : setStoredGamePath f p rest with _ | rest'
      · simp [setStoredGamePath, hm, hr] at h
      · simp only [setStoredGamePath, hm, Bool.false_eq_true, if_false, hr] at h
        obtain rfl := Option.some_inj.mp h
        cases i with
        | zero => simpa using hget
        | succ i' =>
          simp only [List.get?_cons_succ] at hget ⊢
          exact ih rest' hr i' d hget hne

theorem writeGamePath_names (st : List GameSettings) (g : Game) :
    (writeGamePath st g).map GameSettings.folderName =
      st.map GameSettings.folderName := by
  simp only [writeGamePath]
  rcases hr : setStoredGamePath g.folderName g.settings.gamePath st with _ | st'
  · rfl
  · exact setStoredGamePath_names g.folderName g.settings.gamePath st st' hr

theorem writeGamePath_get? (st : List GameSettings) (g : Game) (i : Nat)
    (d : GameSettings) (hget : st.get? i = some d)
    (hne : iequals g.folderName d.folderName = false) :
    (writeGamePath st g).get? i = some d := by
  simp only [writeGamePath]
  rcases hr : setStoredGamePath g.folderName g.settings.gamePath st with _ | st'
  · exact hget
  · exact setStoredGamePath_get? g.folderName g.settings.gamePath st st' hr i d hget hne

theorem writeAll_get? (A : List Game) :
    ∀ (st : List GameSettings) (i : Nat) (d : GameSettings), st.get? i = some d →
      (∀ g ∈ A, iequals g.folderName d.folderName = false) →
      (writeAll st A).get? i = some d := by
  induction A with
  | nil =>
    intro st i d hget _
    exact hget
  | cons g rest ih =>
    intro st i d hget hall
    simp only [writeAll]
    exact ih (writeGamePath st g) i d
      (writeGamePath_get? st g i d hget (hall g (List.mem_cons_self g rest)))
      (fun g' hg' => hall g' (List.mem_cons_of_mem g hg'))

theorem runSettingsPass_stored (installed : GameSettings → Bool) :
    ∀ (c : List GameSettings) (ps : PassState),
      (∀ gs ∈ c, (ps.stored.map GameSettings.folderName).any
        (fun n => iequals gs.folderName n) = true) →
      (runSettingsPass installed c ps).stored =
        writeAll ps.stored (appendedGames installed c (ps.games.map Game.folderName)) ∧
      (runSettingsPass installed c ps).storeCalls = ps.storeCalls +
        (appendedGames installed c (ps.games.map Game.folderName)).length := by
  intro c
  induction c with
  | nil =>
    intro ps _
    simp [runSettingsPass, appendedGames, writeAll]
  | cons gs rest ih =>
    intro ps hc
    simp only [runSettingsPass]
    rcases hm : updateMatched gs ps.games with _ | games'
    · by_cases hi : installed gs = true
      · have hcond : (ps.games.map Game.folderName).any
            (fun n => iequals n gs.folderName) = false := by
          rw [anyNames_eq]
          have := updateMatched_isSome gs ps.games
          rw [hm] at this
          exact this.symm
        have hsome : (setStoredGamePath (mkGame gs).folderName
            (mkGame gs).settings.gamePath ps.stored).isSome = true := by
          rw [setStoredGamePath_isSome]
          have hgs := hc gs (List.mem_cons_self gs rest)
          rw [List.any_eq_true] at hgs ⊢
          obtain ⟨n, hn, hie⟩ := hgs
          obtain ⟨d, hd, rfl⟩ := List.mem_map.mp hn
          exact ⟨d, hd, hie⟩
        obtain ⟨st', hst'⟩ := Option.isSome_iff_exists.mp hsome
        have hps2 : processGameSetting installed ps gs =
            ⟨ps.games ++ [mkGame gs], st', ps.storeCalls + 1,
              ps.seen ++ [gs.folderName]⟩ := by
          simp [processGameSetting, hm, hi, updateStoredGamePathSetting, hst']
        rw [hps2]
        have hwrite : st' = writeGamePath ps.stored (mkGame gs) := by
          simp [writeGamePath, hst']
        have hnames : (ps.games ++ [mkGame gs]).map Game.folderName =
            ps.games.map Game.folderName ++ [gs.folderName] := by
          simp [mkGame_folderName]
        have hrest := ih ⟨ps.games ++ [mkGame gs], st', ps.storeCalls + 1,
            ps.seen ++ [gs.folderName]⟩
          (by
            intro gs' hgs'
            have hn : st'.map GameSettings.folderName =
                ps.stored.map GameSettings.folderName :=
              setStoredGamePath_names _ _ _ _ hst'
            simp only [hn]
            exact hc gs' (List.mem_cons_of_mem gs hgs'))
        simp only [hnames] at hrest
        rw [appendedGames]
        simp only [hcond, Bool.false_eq_true, if_false, hi, if_true]
        refine ⟨?_, ?_⟩
        · rw [hrest.1, writeAll, ← hwrite]
        · rw [hrest.2]
          simp only [List.length_cons]
          omega
      · have hcond : (ps.games.map Game.folderName).any
            (fun n => iequals n gs.folderName) = false := by
          rw [anyNames_eq]
          have := updateMatched_isSome gs ps.games
          rw [hm] at this
          exact this.symm
        have hib : installed gs = false := by
          rcases h' : installed gs with _ | _
          · rfl
          · exact absurd h' hi
        have hps2 : processGameSetting installed ps gs =
            ⟨ps.games, ps.stored, ps.storeCalls, ps.seen ++ [gs.folderName]⟩ := by
          simp [processGameSetting, hm, hib]
        rw [hps2]
        have hrest := ih ⟨ps.games, ps.stored, ps.storeCalls,
            ps.seen ++ [gs.folderName]⟩
          (fun gs' hgs' => hc gs' (List.mem_cons_of_mem gs hgs'))
        rw [appendedGames]
        simp only [hcond, Bool.false_eq_true, if_false, hib]
        exact hrest
    · have hcond : (ps.games.map Game.folderName).any
          (fun n => iequals n gs.folderName) = true := by
        rw [anyNames_eq]
        have := updateMatched_isSome gs ps.games
        rw [hm] at this
        exact this.symm
      have hps2 : processGameSetting installed ps gs =
          ⟨games', ps.stored, ps.storeCalls, ps.seen ++ [gs.folderName]⟩ := by
        simp [processGameSetting, hm]
      rw [hps2]
      have hrest := ih ⟨games', ps.stored, ps.storeCalls, ps.seen ++ [gs.folderName]⟩
        (fun gs' hgs' => hc gs' (List.mem_cons_of_mem gs hgs'))
      have hnames : games'.map Game.folderName = ps.games.map Game.folderName :=
        updateMatched_names gs ps.games games' hm
      simp only [hnames] at hrest
      rw [appendedGames]
      simp only [hcond, if_true]
      exact hrest

/-- Claim C10: whenever `load` appends a newly-detected game entry, it also
writes that game's path back into the configuration store (the lookup of the
case-insensitively matching descriptor followed by `storeGameSettings`),
once per appended entry and in order; when nothing is appended the stored
settings are exactly the loaded input, and descriptors matching no appended
entry are never touched. -/
theorem c10_config_writeback (installed : GameSettings → Bool) (cfg : LootConfig)
    (s : LootState) :
    ((load installed cfg s).1.storedGameSettings =
      writeAll cfg.gameSettings
        (appendedGames installed cfg.gameSettings (s.installedGames.map Game.folderName))) ∧
    ((load installed cfg s).1.storeCalls = s.storeCalls +
      (appendedGames installed cfg.gameSettings (s.installedGames.map Game.folderName)).length) ∧
    (appendedGames installed cfg.gameSettings (s.installedGames.map Game.folderName) = [] →
      (load installed cfg s).1.storedGameSettings = cfg.gameSettings) ∧
    (∀ i d, cfg.gameSettings.get? i = some d →
      (∀ g ∈ appendedGames installed cfg.gameSettings (s.installedGames.map Game.folderName),
        iequals g.folderName d.folderName = false) →
      (load installed cfg s).1.storedGameSettings.get? i = some d) := by
  have hc : ∀ gs ∈ cfg.gameSettings, (cfg.gameSettings.map GameSettings.folderName).any
      (fun n => iequals gs.folderName n) = true := by
    intro gs hgs
    rw [List.any_eq_true]
    exact ⟨gs.folderName, List.mem_map_of_mem GameSettings.folderName hgs,
      iequals_refl gs.folderName⟩
  have hmain := runSettingsPass_stored installed cfg.gameSettings
    ⟨s.installedGames, cfg.gameSettings, s.storeCalls, []⟩ hc
  refine ⟨?_, ?_, ?_, ?_⟩
  · rw [load_stored]
    exact hmain.1
  · rw [load_storeCalls]
    exact hmain.2
  · intro hnil
    have h1 : (loadPass installed cfg s).stored = writeAll cfg.gameSettings
        (appendedGames installed cfg.gameSettings
          (s.installedGames.map Game.folderName)) := hmain.1
    rw [load_stored, h1, hnil]
    rfl
  · intro i d hget hall
    have h1 : (loadPass installed cfg s).stored = writeAll cfg.gameSettings
        (appendedGames installed cfg.gameSettings
          (s.installedGames.map Game.folderName)) := hmain.1
    rw [load_stored, h1]
    exact writeAll_get? _ cfg.gameSettings i d hget hall

/-- Claim C10 witness: loading a two-game configuration into an empty
registry with only GameA installed appends GameA with exactly one settings
store, while GameB's stored descriptor is untouched. -/
theorem c10_witness :
    (load onlyAInstalled (autoConfig [settingsA, settingsB]) LootState.initial).1.storeCalls =
      LootState.initial.storeCalls +
        (appendedGames onlyAInstalled [settingsA, settingsB]
          (LootState.initial.installedGames.map Game.folderName)).length ∧
    (load onlyAInstalled (autoConfig [settingsA, settingsB])
        LootState.initial).1.storedGameSettings.get? 1 = some settingsB :=
  ⟨(c10_config_writeback onlyAInstalled (autoConfig [settingsA, settingsB])
      LootState.initial).2.1,
    (c10_config_writeback onlyAInstalled (autoConfig [settingsA, settingsB])
      LootState.initial).2.2.2 1 settingsB (by decide)
      (by decide)⟩

theorem noCIDup_tail {y : String} {ys : List String} (h : noCIDup (y :: ys) = true) :
    noCIDup ys = true := by
  simp only [noCIDup, Bool.and_eq_true] at h
  exact h.2

theorem noCIDup_head {y : String} {ys : List String} (h : noCIDup (y :: ys) = true) :
    ∀ z ∈ ys, iequals y z = false := by
  simp only [noCIDup, Bool.and_eq_true, List.all_eq_true] at h
  intro z hz
  have hb := h.1 z hz
  simpa using hb

theorem noCIDup_uniq : ∀ ns : List String, noCIDup ns = true →
    ∀ a ∈ ns, ∀ b ∈ ns, iequals a b = true → a = b := by
  intro ns
  induction ns with
  | nil =>
    intro _ a ha
    simp at ha
  | cons y ys ih =>
    intro h a ha b hb hie
    rcases List.mem_cons.mp ha with rfl | ha' <;> rcases List.mem_cons.mp hb with rfl | hb'
    · rfl
    · exact absurd hie (by simp [noCIDup_head h b hb'])
    · rw [iequals_symm] at hie
      exact absurd hie (by simp [noCIDup_head h a ha'])
    · exact ih (noCIDup_tail h) a ha' b hb' hie

theorem distinctStrs_tail {y : String} {ys : List String}
    (h : distinctStrs (y :: ys) = true) : distinctStrs ys = true := by
  simp only [distinctStrs, Bool.and_eq_true] at h
  exact h.2

theorem distinctStrs_head {y : String} {ys : List String}
    (h : distinctStrs (y :: ys) = true) : memStr y ys = false := by
  simp only [distinctStrs, Bool.and_eq_true] at h
  simpa using h.1

theorem distinctStrs_of_noCIDup : ∀ ns, noCIDup ns = true → distinctStrs ns = true := by
  intro ns
  induction ns with
  | nil => intro _; rfl
  | cons y ys ih =>
    intro h
    simp only [distinctStrs, Bool.and_eq_true]
    refine ⟨?_, ih (noCIDup_tail h)⟩
    rcases hm : memStr y ys with _ | _
    · rfl
    · have hy : y ∈ ys := memStr_iff.mp hm
      have hf := noCIDup_head h y hy
      rw [iequals_refl] at hf
      exact absurd hf (by simp)

theorem noCIDup_of_sublist : ∀ {ns ms : List String}, ns.Sublist ms →
    noCIDup ms = true → noCIDup ns = true := by
  intro ns ms h
  induction h with
  | slnil => intro _; rfl
  | cons a h ih =>
    intro hm
    exact ih (noCIDup_tail hm)
  | cons₂ a h ih =>
    intro hm
    simp only [noCIDup, Bool.and_eq_true, List.all_eq_true]
    refine ⟨?_, ih (noCIDup_tail hm)⟩
    intro z hz
    simpa using noCIDup_head hm z (h.subset hz)

theorem noCIDup_cross : ∀ (xs : List String) (y : String) (ys : List String),
    noCIDup (xs ++ y :: ys) = true → ∀ x ∈ xs, iequals x y = false := by
  intro xs
  induction xs with
  | nil =>
    intro y ys _ x hx
    simp at hx
  | cons x' xs' ih =>
    intro y ys h x hx
    rcases List.mem_cons.mp hx with rfl | hx'
    · exact noCIDup_head h y (by simp)
    · exact ih y ys (noCIDup_tail h) x hx'

theorem findSettingsByName_append (n : String) : ∀ p q : List GameSettings,
    findSettingsByName n (p ++ q) =
      (match findSettingsByName n p with
       | some gs => some gs
       | none => findSettingsByName n q) := by
  intro p q
  induction p with
  | nil => simp [findSettingsByName]
  | cons d p' ih =>
    cases hb : d.folderName == n with
    | true => simp [findSettingsByName, hb]
    | false => simp [findSettingsByName, hb, ih]

theorem findSettingsByName_eq_none (n : String) : ∀ c : List GameSettings,
    (∀ d ∈ c, (d.folderName == n) = false) → findSettingsByName n c = none := by
  intro c
  induction c with
  | nil => intro _; rfl
  | cons d rest ih =>
    intro h
    simp only [findSettingsByName, h d (List.mem_cons_self d rest), Bool.false_eq_true,
      if_false]
    exact ih (fun d' hd' => h d' (List.mem_cons_of_mem d hd'))

theorem findSettingsByName_self : ∀ (c : List GameSettings) (gs : GameSettings),
    noCIDup (c.map GameSettings.folderName) = true → gs ∈ c →
    findSettingsByName gs.folderName c = some gs := by
  intro c
  induction c with
  | nil =>
    intro gs _ h
    simp at h
  | cons d rest ih =>
    intro gs hCI hmem
    simp only [List.map_cons] at hCI
    rcases List.mem_cons.mp hmem with rfl | hmem'
    · simp [findSettingsByName]
    · have hne : (d.folderName == gs.folderName) = false := by
        rcases hb : d.folderName == gs.folderName with _ | _
        · rfl
        · have heq : d.folderName = gs.folderName := beq_iff_eq.mp hb
          have hgmem : gs.folderName ∈ rest.map GameSettings.folderName :=
            List.mem_map_of_mem GameSettings.folderName hmem'
          have hf := noCIDup_head hCI gs.folderName hgmem
          rw [heq, iequals_refl] at hf
          exact absurd hf (by simp)
      simp only [findSettingsByName, hne, Bool.false_eq_true, if_false]
      exact ih gs (noCIDup_tail hCI) hmem'

theorem names_uniq_val : ∀ c : List GameSettings,
    noCIDup (c.map GameSettings.folderName) = true →
    ∀ a ∈ c, ∀ b ∈ c, a.folderName = b.folderName → a = b := by
  intro c
  induction c with
  | nil =>
    intro _ a ha
    simp at ha
  | cons d rest ih =>
    intro h a ha b hb heq
    simp only [List.map_cons] at h
    rcases List.mem_cons.mp ha with rfl | ha' <;> rcases List.mem_cons.mp hb with rfl | hb'
    · rfl
    · have hf := noCIDup_head h b.folderName
        (List.mem_map_of_mem GameSettings.folderName hb')
      rw [heq, iequals_refl] at hf
      exact absurd hf (by simp)
    · have hf := noCIDup_head h a.folderName
        (List.mem_map_of_mem GameSettings.folderName ha')
      rw [← heq, iequals_refl] at hf
      exact absurd hf (by simp)
    · exact ih (noCIDup_tail h) a ha' b hb' heq

theorem updByConfig_folderName (c : List GameSettings) (g : Game) :
    (updByConfig c g).folderName = g.folderName := by
  simp only [updByConfig]
  rcases h : findSettingsByName g.folderName c with _ | gs
  · rfl
  · exact setGameSettings_folderName g gs

theorem updByConfig_nil (g : Game) : updByConfig [] g = g := rfl

theorem map_eq_of_mem {α β : Type} (l : List α) (f₁ f₂ : α → β)
    (h : ∀ x ∈ l, f₁ x = f₂ x) : l.map f₁ = l.map f₂ := by
  induction l with
  | nil => rfl
  | cons x xs ih =>
    simp only [List.map_cons]
    rw [h x (List.mem_cons_self x xs), ih (fun y hy => h y (List.mem_cons_of_mem x hy))]

theorem map_id_of_mem {α : Type} (l : List α) (f : α → α)
    (h : ∀ x ∈ l, f x = x) : l.map f = l := by
  rw [map_eq_of_mem l f id h]
  exact List.map_id l

theorem map_names_updByConfig (p : List GameSettings) (E0 : List Game) :
    (E0.map (updByConfig p)).map Game.folderName = E0.map Game.folderName := by
  rw [List.map_map]
  exact map_eq_of_mem E0 _ _ (fun e _ => updByConfig_folderName p e)

theorem updByConfig_append_sing_eq (p : List GameSettings) (gs : GameSettings) (g : Game)
    (hname : g.folderName = gs.folderName)
    (hnone : findSettingsByName g.folderName p = none) :
    updByConfig (p ++ [gs]) g = setGameSettings g gs := by
  simp only [updByConfig, findSettingsByName_append, hnone]
  simp [findSettingsByName, hname]

theorem updByConfig_append_sing_ne (p : List GameSettings) (gs : GameSettings) (g : Game)
    (hname : g.folderName ≠ gs.folderName) :
    updByConfig (p ++ [gs]) g = updByConfig p g := by
  simp only [updByConfig, findSettingsByName_append]
  rcases h : findSettingsByName g.folderName p with _ | d
  · have hb : (gs.folderName == g.folderName) = false := by
      rcases hbb : gs.folderName == g.folderName with _ | _
      · rfl
      · exact absurd (beq_iff_eq.mp hbb).symm hname
    simp [findSettingsByName, hb]
  · rfl

theorem updateMatched_none_of_all (gs : GameSettings) : ∀ G : List Game,
    (∀ g ∈ G, matchesSettings g gs = false) → updateMatched gs G = none := by
  intro G
  induction G with
  | nil => intro _; rfl
  | cons g rest ih =>
    intro h
    simp only [updateMatched, h g (List.mem_cons_self g rest), Bool.false_eq_true, if_false]
    rw [ih (fun g' hg' => h g' (List.mem_cons_of_mem g hg'))]

theorem updateMatched_append_decomp (gs : GameSettings) : ∀ G₁ G₂ : List Game,
    updateMatched gs (G₁ ++ G₂) =
      (match updateMatched gs G₁ with
       | some G₁' => some (G₁' ++ G₂)
       | none => (updateMatched gs G₂).map (fun G₂' => G₁ ++ G₂')) := by
  intro G₁ G₂
  induction G₁ with
  | nil =>
    simp only [List.nil_append, updateMatched]
    rcases h : updateMatched gs G₂ with _ | G₂' <;> simp [h]
  | cons g rest ih =>
    cases hm : matchesSettings g gs with
    | true => simp [updateMatched, hm]
    | false =>
      simp only [List.cons_append, updateMatched, hm, Bool.false_eq_true, if_false,
        List.append_eq]
      rcases h1 : updateMatched gs rest with _ | rest'
      · rw [ih, h1]
        rcases h2 : updateMatched gs G₂ with _ | G₂' <;> simp [h2]
      · rw [ih, h1]
        simp

theorem updateMatched_unique_map (gs : GameSettings) : ∀ U : List Game,
    (∀ g ∈ U, iequals g.folderName gs.folderName = true → g.folderName = gs.folderName) →
    distinctStrs (U.map Game.folderName) = true →
    gs.folderName ∈ U.map Game.folderName →
    updateMatched gs U = some (U.map (fun g =>
      if g.folderName == gs.folderName then setGameSettings g gs else g)) := by
  intro U
  induction U with
  | nil =>
    intro _ _ hmem
    simp at hmem
  | cons g rest ih =>
    intro hExact hD hmem
    simp only [List.map_cons] at hD hmem
    by_cases hg : g.folderName = gs.folderName
    · have hms : matchesSettings g gs = true := matchesSettings_of_eq hg
      simp only [updateMatched, hms, if_true, List.map_cons]
      have hrest_id : rest.map (fun g' =>
          if g'.folderName == gs.folderName then setGameSettings g' gs else g') = rest := by
        apply map_id_of_mem
        intro g' hg'
        have hne : (g'.folderName == gs.folderName) = false := by
          rcases hb : g'.folderName == gs.folderName with _ | _
          · rfl
          · have heq : g'.folderName = gs.folderName := beq_iff_eq.mp hb
            have hmemStr : memStr g.folderName (rest.map Game.folderName) = true := by
              rw [memStr_iff, hg, ← heq]
              exact List.mem_map_of_mem Game.folderName hg'
            rw [distinctStrs_head hD] at hmemStr
            exact absurd hmemStr (by simp)
        simp [hne]
      have hbg : (g.folderName == gs.folderName) = true := beq_iff_eq.mpr hg
      rw [if_pos hbg, hrest_id]
    · have hms : matchesSettings g gs = false := by
        rcases hb : matchesSettings g gs with _ | _
        · rfl
        · exact absurd (hExact g (List.mem_cons_self g rest) hb) hg
      have hbg : (g.folderName == gs.folderName) = false := by
        rcases hb : g.folderName == gs.folderName with _ | _
        · rfl
        · exact absurd (beq_iff_eq.mp hb) hg
      simp only [updateMatched, hms, Bool.false_eq_true, if_false, List.map_cons, hbg]
      have hmem' : gs.folderName ∈ rest.map Game.folderName := by
        rcases List.mem_cons.mp hmem with heq | h'
        · exact absurd heq.symm hg
        · exact h'
      rw [ih (fun g' h' hb => hExact g' (List.mem_cons_of_mem g h') hb)
        (distinctStrs_tail hD) hmem']

theorem appendsFor_append_sing (installed : GameSettings → Bool) (ns : List String)
    (gs : GameSettings) : ∀ p : List GameSettings,
      appendsFor installed ns (p ++ [gs]) =
        appendsFor installed ns p ++
          (if memStr gs.folderName ns then []
           else if installed gs then [mkGame gs] else []) := by
  intro p
  induction p with
  | nil =>
    cases h1 : memStr gs.folderName ns <;> cases h2 : installed gs <;>
      simp [appendsFor, h1, h2]
  | cons d p' ih =>
    cases h1 : memStr d.folderName ns <;> cases h2 : installed d <;>
      simp [appendsFor, h1, h2, ih]

theorem appendsFor_eq_filter (installed : GameSettings → Bool) (ns : List String) :
    ∀ c : List GameSettings, appendsFor installed ns c =
      (c.filter (fun gs => !(memStr gs.folderName ns) && installed gs)).map mkGame := by
  intro c
  induction c with
  | nil => rfl
  | cons gs rest ih =>
    cases h1 : memStr gs.folderName ns <;> cases h2 : installed gs <;>
      simp [appendsFor, List.filter_cons, h1, h2, ih]

theorem appendsFor_mem (installed : GameSettings → Bool) (ns : List String)
    (c : List GameSettings) (g : Game) (hg : g ∈ appendsFor installed ns c) :
    ∃ gs ∈ c, g = mkGame gs ∧ memStr gs.folderName ns = false ∧ installed gs = true := by
  rw [appendsFor_eq_filter] at hg
  obtain ⟨gs, hgs, rfl⟩ := List.mem_map.mp hg
  have hf := List.mem_filter.mp hgs
  have hb := hf.2
  simp only [Bool.and_eq_true, Bool.not_eq_true'] at hb
  exact ⟨gs, hf.1, rfl, hb.1, hb.2⟩

theorem mem_appendsFor (installed : GameSettings → Bool) (ns : List String)
    (c : List GameSettings) (gs : GameSettings) (hmem : gs ∈ c)
    (hns : memStr gs.folderName ns = false) (hi : installed gs = true) :
    mkGame gs ∈ appendsFor installed ns c := by
  rw [appendsFor_eq_filter]
  exact List.mem_map_of_mem mkGame (List.mem_filter.mpr ⟨hmem, by simp [hns, hi]⟩)

theorem filter_all_true (games : List Game) (q : Game → Bool)
    (h : ∀ g ∈ games, q g = true) : games.filter q = games := by
  induction games with
  | nil => rfl
  | cons g rest ih =>
    rw [List.filter_cons, if_pos (h g (List.mem_cons_self g rest)),
      ih (fun g' hg' => h g' (List.mem_cons_of_mem g hg'))]

theorem claimUpdatePass_char (installed : GameSettings → Bool) :
    ∀ (rest p : List GameSettings) (E0 : List Game),
      (∀ g ∈ E0, ∀ d ∈ p ++ rest, iequals g.folderName d.folderName = true →
        g.folderName = d.folderName) →
      noCIDup ((p ++ rest).map GameSettings.folderName) = true →
      distinctStrs (E0.map Game.folderName) = true →
      claimUpdatePass installed rest
          (E0.map (updByConfig p) ++ appendsFor installed (E0.map Game.folderName) p) =
        E0.map (updByConfig (p ++ rest)) ++
          appendsFor installed (E0.map Game.folderName) (p ++ rest) := by
  intro rest
  induction rest with
  | nil =>
    intro p E0 _ _ _
    simp [claimUpdatePass]
  | cons gs rest' ih =>
    intro p E0 hEx hCI hD
    have hpp : p ++ gs :: rest' = (p ++ [gs]) ++ rest' := by simp
    have hCIn : noCIDup (p.map GameSettings.folderName ++
        gs.folderName :: rest'.map GameSettings.folderName) = true := by
      simpa using hCI
    have hGnone : findSettingsByName gs.folderName p = none := by
      apply findSettingsByName_eq_none
      intro d hd
      rcases hb : d.folderName == gs.folderName with _ | _
      · rfl
      · have heq : d.folderName = gs.folderName := beq_iff_eq.mp hb
        have hcross := noCIDup_cross (p.map GameSettings.folderName) gs.folderName
          (rest'.map GameSettings.folderName) hCIn d.folderName
          (List.mem_map_of_mem GameSettings.folderName hd)
        rw [heq, iequals_refl] at hcross
        exact absurd hcross (by simp)
    have hAno : ∀ a ∈ appendsFor installed (E0.map Game.folderName) p,
        matchesSettings a gs = false := by
      intro a ha
      obtain ⟨gs', hgs', rfl, _, _⟩ := appendsFor_mem installed _ p a ha
      have hcross := noCIDup_cross (p.map GameSettings.folderName) gs.folderName
        (rest'.map GameSettings.folderName) hCIn gs'.folderName
        (List.mem_map_of_mem GameSettings.folderName hgs')
      simpa [matchesSettings, mkGame_folderName] using hcross
    have hfgsc : gs.folderName ∈ (p ++ gs :: rest').map GameSettings.folderName :=
      List.mem_map_of_mem GameSettings.folderName
        (List.mem_append_right p (List.mem_cons_self gs rest'))
    have hgsmem : gs ∈ p ++ gs :: rest' :=
      List.mem_append_right p (List.mem_cons_self gs rest')
    have hEx2 : ∀ g ∈ E0, ∀ d ∈ (p ++ [gs]) ++ rest',
        iequals g.folderName d.folderName = true → g.folderName = d.folderName := by
      rw [← hpp]
      exact hEx
    have hCI2 : noCIDup (((p ++ [gs]) ++ rest').map GameSettings.folderName) = true := by
      rw [← hpp]
      exact hCI
    have hIH := ih (p ++ [gs]) E0 hEx2 hCI2 hD
    rw [← hpp] at hIH
    cases hmem : memStr gs.folderName (E0.map Game.folderName) with
    | true =>
      have hUmem : gs.folderName ∈ (E0.map (updByConfig p)).map Game.folderName := by
        rw [map_names_updByConfig]
        exact memStr_iff.mp hmem
      have hUExact : ∀ u ∈ E0.map (updByConfig p),
          iequals u.folderName gs.folderName = true → u.folderName = gs.folderName := by
        intro u hu hie
        obtain ⟨e, he, rfl⟩ := List.mem_map.mp hu
        rw [updByConfig_folderName] at hie ⊢
        exact hEx e he gs hgsmem hie
      have hUD : distinctStrs ((E0.map (updByConfig p)).map Game.folderName) = true := by
        rw [map_names_updByConfig]
        exact hD
      have hU := updateMatched_unique_map gs (E0.map (updByConfig p)) hUExact hUD hUmem
      have hstep : updateMatched gs (E0.map (updByConfig p) ++
          appendsFor installed (E0.map Game.folderName) p) =
          some ((E0.map (updByConfig p)).map (fun g =>
            if g.folderName == gs.folderName then setGameSettings g gs else g) ++
            appendsFor installed (E0.map Game.folderName) p) := by
        rw [updateMatched_append_decomp, hU]
      have hmap : (E0.map (updByConfig p)).map (fun g =>
          if g.folderName == gs.folderName then setGameSettings g gs else g) =
          E0.map (updByConfig (p ++ [gs])) := by
        rw [List.map_map]
        apply map_eq_of_mem
        intro e he
        simp only [Function.comp]
        rcases hb : e.folderName == gs.folderName with _ | _
        · have hbc : ((updByConfig p e).folderName == gs.folderName) = false := by
            rw [updByConfig_folderName]
            exact hb
          rw [if_neg (by simp [hbc])]
          refine (updByConfig_append_sing_ne p gs e ?_).symm
          intro hh
          rw [hh] at hb
          simp at hb
        · have heq : e.folderName = gs.folderName := beq_iff_eq.mp hb
          have hbc : ((updByConfig p e).folderName == gs.folderName) = true := by
            rw [updByConfig_folderName]
            exact hb
          rw [if_pos hbc]
          have hide : updByConfig p e = e := by
            simp only [updByConfig]
            rw [heq, hGnone]
          rw [hide, updByConfig_append_sing_eq p gs e heq (by rw [heq]; exact hGnone)]
      have hA' : appendsFor installed (E0.map Game.folderName) (p ++ [gs]) =
          appendsFor installed (E0.map Game.folderName) p := by
        rw [appendsFor_append_sing]
        simp [hmem]
      simp only [claimUpdatePass, hstep]
      rw [hmap, ← hA']
      exact hIH
    | false =>
      have hUno : ∀ u ∈ E0.map (updByConfig p), matchesSettings u gs = false := by
        intro u hu
        obtain ⟨e, he, rfl⟩ := List.mem_map.mp hu
        rcases hb : matchesSettings (updByConfig p e) gs with _ | _
        · rfl
        · have hie : iequals (updByConfig p e).folderName gs.folderName = true := hb
          rw [updByConfig_folderName] at hie
          have hefn : e.folderName = gs.folderName := hEx e he gs hgsmem hie
          have hin : gs.folderName ∈ E0.map Game.folderName := by
            rw [← hefn]
            exact List.mem_map_of_mem Game.folderName he
          have hms := memStr_iff.mpr hin
          rw [hmem] at hms
          exact absurd hms (by simp)
      have hnone : updateMatched gs (E0.map (updByConfig p) ++
          appendsFor installed (E0.map Game.folderName) p) = none := by
        apply updateMatched_none_of_all
        intro g hg
        rcases List.mem_append.mp hg with h | h
        · exact hUno g h
        · exact hAno g h
      have hUid : E0.map (updByConfig (p ++ [gs])) = E0.map (updByConfig p) := by
        apply map_eq_of_mem
        intro e he
        apply updByConfig_append_sing_ne
        intro hh
        have hin : gs.folderName ∈ E0.map Game.folderName := by
          rw [← hh]
          exact List.mem_map_of_mem Game.folderName he
        have hms := memStr_iff.mpr hin
        rw [hmem] at hms
        exact absurd hms (by simp)
      cases hi : installed gs with
      | true =>
        have hA' : appendsFor installed (E0.map Game.folderName) (p ++ [gs]) =
            appendsFor installed (E0.map Game.folderName) p ++ [mkGame gs] := by
          rw [appendsFor_append_sing]
          simp [hmem, hi]
        simp only [claimUpdatePass, hnone, hi, if_true]
        have hassoc : (E0.map (updByConfig p) ++
            appendsFor installed (E0.map Game.folderName) p) ++ [mkGame gs] =
            E0.map (updByConfig (p ++ [gs])) ++
              appendsFor installed (E0.map Game.folderName) (p ++ [gs]) := by
          rw [hUid, hA', List.append_assoc]
        rw [hassoc]
        exact hIH
      | false =>
        simp only [claimUpdatePass, hnone, hi, Bool.false_eq_true, if_false]
        have hA' : appendsFor installed (E0.map Game.folderName) (p ++ [gs]) =
            appendsFor installed (E0.map Game.folderName) p := by
          rw [appendsFor_append_sing]
          simp [hmem, hi]
        have harg : E0.map (updByConfig p) ++
            appendsFor installed (E0.map Game.folderName) p =
            E0.map (updByConfig (p ++ [gs])) ++
              appendsFor installed (E0.map Game.folderName) (p ++ [gs]) := by
          rw [hUid, hA']
        rw [harg]
        exact hIH

theorem claimUpdatePass_fix (installed : GameSettings → Bool) :
    ∀ (c : List GameSettings) (G : List Game),
      (∀ gs ∈ c, updateMatched gs G = some G ∨
        (updateMatched gs G = none ∧ installed gs = false)) →
      claimUpdatePass installed c G = G := by
  intro c
  induction c with
  | nil =>
    intro G _
    rfl
  | cons gs rest ih =>
    intro G h
    rcases h gs (List.mem_cons_self gs rest) with hsome | ⟨hnone, hinst⟩
    · simp only [claimUpdatePass, hsome]
      exact ih G (fun gs' h' => h gs' (List.mem_cons_of_mem gs h'))
    · simp only [claimUpdatePass, hnone, hinst, Bool.false_eq_true, if_false]
      exact ih G (fun gs' h' => h gs' (List.mem_cons_of_mem gs h'))

theorem removeDeleted_all (seen : List String) (games : List Game)
    (h : ∀ g ∈ games, memStr g.folderName seen = true) :
    removeDeleted seen games = games :=
  filter_all_true games _ h

theorem loadGames_eq (installed : GameSettings → Bool) (cfg : LootConfig) (s : LootState) :
    loadGames installed cfg s =
      removeDeleted (cfg.gameSettings.map GameSettings.folderName)
        (claimUpdatePass installed cfg.gameSettings s.installedGames) := by
  simp only [loadGames, loadPass]
  rw [runSettingsPass_seen, runSettingsPass_games]
  simp

theorem appendsFor_names_sub (installed : GameSettings → Bool) (ns : List String)
    (c : List GameSettings) :
    (appendsFor installed ns c).map Game.folderName =
      (c.filter (fun gs => !(memStr gs.folderName ns) && installed gs)).map
        GameSettings.folderName := by
  rw [appendsFor_eq_filter, List.map_map]
  exact map_eq_of_mem _ _ _ (fun gs _ => rfl)

theorem fixpoint_G1 (installed : GameSettings → Bool) (c : List GameSettings)
    (E0 : List Game)
    (h1 : ∀ g ∈ E0, memStr g.folderName (c.map GameSettings.folderName) = true)
    (h2 : noCIDup (c.map GameSettings.folderName) = true)
    (h3 : distinctStrs (E0.map Game.folderName) = true) :
    ∀ gs ∈ c,
      updateMatched gs (E0.map (updByConfig c) ++
          appendsFor installed (E0.map Game.folderName) c) =
        some (E0.map (updByConfig c) ++
          appendsFor installed (E0.map Game.folderName) c) ∨
      (updateMatched gs (E0.map (updByConfig c) ++
          appendsFor installed (E0.map Game.folderName) c) = none ∧
        installed gs = false) := by
  intro gs hgs
  have hfgsc : gs.folderName ∈ c.map GameSettings.folderName :=
    List.mem_map_of_mem GameSettings.folderName hgs
  have hnsc : ∀ n ∈ E0.map Game.folderName, n ∈ c.map GameSettings.folderName := by
    intro n hn
    obtain ⟨e, he, rfl⟩ := List.mem_map.mp hn
    exact memStr_iff.mp (h1 e he)
  have hUExact : ∀ u ∈ E0.map (updByConfig c),
      iequals u.folderName gs.folderName = true → u.folderName = gs.folderName := by
    intro u hu hie
    have hun : u.folderName ∈ c.map GameSettings.folderName := by
      apply hnsc
      rw [← map_names_updByConfig c E0]
      exact List.mem_map_of_mem Game.folderName hu
    exact noCIDup_uniq _ h2 u.folderName hun gs.folderName hfgsc hie
  have hAnames : ∀ a ∈ appendsFor installed (E0.map Game.folderName) c,
      a.folderName ∈ c.map GameSettings.folderName := by
    intro a ha
    obtain ⟨gs', hgs', rfl, _, _⟩ :=
      appendsFor_mem installed (E0.map Game.folderName) c a ha
    exact List.mem_map_of_mem GameSettings.folderName hgs'
  cases hmem : memStr gs.folderName (E0.map Game.folderName) with
  | true =>
    left
    have hUmem : gs.folderName ∈ (E0.map (updByConfig c)).map Game.folderName := by
      rw [map_names_updByConfig]
      exact memStr_iff.mp hmem
    have hUD : distinctStrs ((E0.map (updByConfig c)).map Game.folderName) = true := by
      rw [map_names_updByConfig]
      exact h3
    have hU := updateMatched_unique_map gs (E0.map (updByConfig c)) hUExact hUD hUmem
    have hUid : (E0.map (updByConfig c)).map (fun g =>
        if g.folderName == gs.folderName then setGameSettings g gs else g) =
        E0.map (updByConfig c) := by
      apply map_id_of_mem
      intro u hu
      obtain ⟨e, he, rfl⟩ := List.mem_map.mp hu
      rcases hb : (updByConfig c e).folderName == gs.folderName with _ | _
      · rw [if_neg (by simp)]
      · rw [if_pos rfl]
        have heq : e.folderName = gs.folderName := by
          rw [← updByConfig_folderName c e]
          exact beq_iff_eq.mp hb
        have hupd : updByConfig c e = setGameSettings e gs := by
          simp only [updByConfig]
          rw [heq, findSettingsByName_self c gs h2 hgs]
        rw [hupd, setGameSettings_idem]
    rw [updateMatched_append_decomp, hU, hUid]
  | false =>
    have hUno : ∀ u ∈ E0.map (updByConfig c), matchesSettings u gs = false := by
      intro u hu
      rcases hb : matchesSettings u gs with _ | _
      · rfl
      · have hufn := hUExact u hu hb
        have hin : gs.folderName ∈ E0.map Game.folderName := by
          rw [← hufn, ← map_names_updByConfig c E0]
          exact List.mem_map_of_mem Game.folderName hu
        have hms := memStr_iff.mpr hin
        rw [hmem] at hms
        exact absurd hms (by simp)
    cases hi : installed gs with
    | true =>
      left
      have hAmemg : mkGame gs ∈ appendsFor installed (E0.map Game.folderName) c :=
        mem_appendsFor installed (E0.map Game.folderName) c gs hgs hmem hi
      have hAExact : ∀ a ∈ appendsFor installed (E0.map Game.folderName) c,
          iequals a.folderName gs.folderName = true → a.folderName = gs.folderName := by
        intro a ha hie
        exact noCIDup_uniq _ h2 a.folderName (hAnames a ha) gs.folderName hfgsc hie
      have hAD : distinctStrs
          ((appendsFor installed (E0.map Game.folderName) c).map Game.folderName) = true := by
        rw [appendsFor_names_sub]
        apply distinctStrs_of_noCIDup
        apply noCIDup_of_sublist (List.Sublist.map GameSettings.folderName
          (List.filter_sublist c))
        exact h2
      have hAmemn : gs.folderName ∈
          (appendsFor installed (E0.map Game.folderName) c).map Game.folderName := by
        have := List.mem_map_of_mem Game.folderName hAmemg
        simpa [mkGame_folderName] using this
      have hA := updateMatched_unique_map gs
        (appendsFor installed (E0.map Game.folderName) c) hAExact hAD hAmemn
      have hAid : (appendsFor installed (E0.map Game.folderName) c).map (fun g =>
          if g.folderName == gs.folderName then setGameSettings g gs else g) =
          appendsFor installed (E0.map Game.folderName) c := by
        apply map_id_of_mem
        intro a ha
        rcases hb : a.folderName == gs.folderName with _ | _
        · rw [if_neg (by simp)]
        · rw [if_pos rfl]
          obtain ⟨gs', hgs', rfl, _, _⟩ :=
            appendsFor_mem installed (E0.map Game.folderName) c a ha
          have heq : gs'.folderName = gs.folderName := beq_iff_eq.mp hb
          have hval : gs' = gs := names_uniq_val c h2 gs' hgs' gs hgs heq
          rw [hval, setGameSettings_mkGame]
      rw [updateMatched_append_decomp, updateMatched_none_of_all gs _ hUno, hA, hAid]
      simp
    | false =>
      right
      refine ⟨?_, rfl⟩
      apply updateMatched_none_of_all
      intro g hg
      rcases List.mem_append.mp hg with h | h
      · exact hUno g h
      · rcases hb : matchesSettings g gs with _ | _
        · rfl
        · have hgfn := noCIDup_uniq _ h2 g.folderName (hAnames g h) gs.folderName hfgsc hb
          obtain ⟨gs', hgs', rfl, _, hinst'⟩ :=
            appendsFor_mem installed (E0.map Game.folderName) c g h
          have heq : gs'.folderName = gs.folderName := hgfn
          have hval : gs' = gs := names_uniq_val c h2 gs' hgs' gs hgs heq
          rw [hval] at hinst'
          rw [hi] at hinst'
          exact absurd hinst' (by simp)

theorem filter_map_updByConfig (c : List GameSettings) (cn : List String) :
    ∀ E0 : List Game,
      (E0.map (updByConfig c)).filter (fun g => memStr g.folderName cn) =
        (E0.filter (fun g => memStr g.folderName cn)).map (updByConfig c) := by
  intro E0
  induction E0 with
  | nil => rfl
  | cons e rest ih =>
    simp only [List.map_cons, List.filter_cons, updByConfig_folderName]
    cases hm : memStr e.folderName cn with
    | true => simp [hm, ih]
    | false => simp [hm, ih]

theorem appendsFor_congr (installed : GameSettings → Bool) (ns₁ ns₂ : List String) :
    ∀ c : List GameSettings,
      (∀ gs ∈ c, memStr gs.folderName ns₁ = memStr gs.folderName ns₂) →
      appendsFor installed ns₁ c = appendsFor installed ns₂ c := by
  intro c
  induction c with
  | nil => intro _; rfl
  | cons gs rest ih =>
    intro h
    have hh := h gs (List.mem_cons_self gs rest)
    have hrest := ih (fun gs' h' => h gs' (List.mem_cons_of_mem gs h'))
    simp only [appendsFor, hh, hrest]

theorem distinctStrs_of_sublist : ∀ {ns ms : List String}, ns.Sublist ms →
    distinctStrs ms = true → distinctStrs ns = true := by
  intro ns ms h
  induction h with
  | slnil => intro _; rfl
  | cons a h ih =>
    intro hm
    exact ih (distinctStrs_tail hm)
  | cons₂ a h ih =>
    rename_i l₁ l₂
    intro hm
    simp only [distinctStrs, Bool.and_eq_true]
    refine ⟨?_, ih (distinctStrs_tail hm)⟩
    rcases hb : memStr a l₁ with _ | _
    · rfl
    · have h2m : memStr a l₂ = true := memStr_iff.mpr (h.subset (memStr_iff.mp hb))
      rw [distinctStrs_head hm] at h2m
      exact absurd h2m (by simp)

theorem load_twice_same_games (installed : GameSettings → Bool) (cfg : LootConfig)
    (s : LootState)
    (hsame : loadGames installed cfg (load installed cfg s).1 = loadGames installed cfg s) :
    (load installed cfg (load installed cfg s).1).1.installedGames =
      (load installed cfg s).1.installedGames ∧
    (load installed cfg (load installed cfg s).1).1.currentGame =
      (load installed cfg s).1.currentGame ∧
    (load installed cfg (load installed cfg s).1).1.unappliedChangeCounter =
      (load installed cfg s).1.unappliedChangeCounter := by
  refine ⟨?_, ?_, ?_⟩
  · rw [load_installedGames, load_installedGames, hsame]
  · rw [load_currentGame_eq installed cfg (load installed cfg s).1, hsame]
    by_cases hcl : (load installed cfg s).1.currentGame =
        (loadGames installed cfg s).length
    · rw [if_pos hcl]
      rw [load_currentGame_eq installed cfg s] at hcl ⊢
      by_cases hs0 : s.currentGame = (loadGames installed cfg s).length
      · rw [if_pos hs0]
      · rw [if_neg hs0] at hcl
        exact absurd hcl hs0
    · rw [if_neg hcl]
  · rw [load_counter, load_counter]

/-- Claim C8, amended. `load` is idempotent on the registry contents and
order, the current selection, and the unapplied-change counter, provided no
registry folder name matches a configured folder name case-insensitively
without being exactly equal to it (the capitalisation mismatch of the
counterexample), the configured folder names are pairwise not
case-insensitively equal, and the registry's folder names are distinct (the
latter two being the spec's identity-uniqueness invariants). Reconciliations
that remove stale entries are covered: a stale entry matches no descriptor,
is removed by the first call, and the second call changes nothing. -/
theorem c8_amended (installed : GameSettings → Bool) (cfg : LootConfig) (s : LootState)
    (h1 : ∀ g ∈ s.installedGames, ∀ gs ∈ cfg.gameSettings,
      iequals g.folderName gs.folderName = true → g.folderName = gs.folderName)
    (h2 : noCIDup (cfg.gameSettings.map GameSettings.folderName) = true)
    (h3 : distinctStrs (s.installedGames.map Game.folderName) = true) :
    (load installed cfg (load installed cfg s).1).1.installedGames =
      (load installed cfg s).1.installedGames ∧
    (load installed cfg (load installed cfg s).1).1.currentGame =
      (load installed cfg s).1.currentGame ∧
    (load installed cfg (load installed cfg s).1).1.unappliedChangeCounter =
      (load installed cfg s).1.unappliedChangeCounter := by
  have hchar := claimUpdatePass_char installed cfg.gameSettings [] s.installedGames
    (by simpa using h1) (by simpa using h2) h3
  have hid : s.installedGames.map (updByConfig []) ++
      appendsFor installed (s.installedGames.map Game.folderName) [] =
      s.installedGames := by
    have hmapid : s.installedGames.map (updByConfig []) = s.installedGames :=
      map_id_of_mem _ _ (fun e _ => updByConfig_nil e)
    simp [appendsFor, hmapid]
  rw [hid] at hchar
  simp only [List.nil_append] at hchar
  have hAcn : ∀ g ∈ appendsFor installed (s.installedGames.map Game.folderName)
      cfg.gameSettings,
      memStr g.folderName (cfg.gameSettings.map GameSettings.folderName) = true := by
    intro g hg
    obtain ⟨gs', hgs', rfl, _, _⟩ := appendsFor_mem installed _ cfg.gameSettings g hg
    rw [memStr_iff, mkGame_folderName]
    exact List.mem_map_of_mem GameSettings.folderName hgs'
  have hcongr : ∀ gs ∈ cfg.gameSettings,
      memStr gs.folderName (s.installedGames.map Game.folderName) =
      memStr gs.folderName ((s.installedGames.filter (fun g => memStr g.folderName
        (cfg.gameSettings.map GameSettings.folderName))).map Game.folderName) := by
    intro gs hgs
    rcases hE : memStr gs.folderName (s.installedGames.map Game.folderName) with _ | _
    · rcases hKm : memStr gs.folderName ((s.installedGames.filter (fun g =>
          memStr g.folderName
            (cfg.gameSettings.map GameSettings.folderName))).map Game.folderName)
        with _ | _
      · simp [hKm]
      · obtain ⟨e, he, hfn⟩ := List.mem_map.mp (memStr_iff.mp hKm)
        have heE : e ∈ s.installedGames := (List.mem_filter.mp he).1
        have hms : memStr gs.folderName (s.installedGames.map Game.folderName) = true := by
          rw [memStr_iff, ← hfn]
          exact List.mem_map_of_mem Game.folderName heE
        rw [hE] at hms
        exact absurd hms (by simp)
    · obtain ⟨e, he, hfn⟩ := List.mem_map.mp (memStr_iff.mp hE)
      have hecn : memStr e.folderName
          (cfg.gameSettings.map GameSettings.folderName) = true := by
        rw [hfn, memStr_iff]
        exact List.mem_map_of_mem GameSettings.folderName hgs
      have heK : e ∈ s.installedGames.filter (fun g => memStr g.folderName
          (cfg.gameSettings.map GameSettings.folderName)) :=
        List.mem_filter.mpr ⟨he, hecn⟩
      have hKm : memStr gs.folderName ((s.installedGames.filter (fun g =>
          memStr g.folderName (cfg.gameSettings.map GameSettings.folderName))).map
            Game.folderName) = true := by
        rw [memStr_iff, ← hfn]
        exact List.mem_map_of_mem Game.folderName heK
      rw [hKm]
  have h1K : ∀ g ∈ s.installedGames.filter (fun g => memStr g.folderName
      (cfg.gameSettings.map GameSettings.folderName)),
      memStr g.folderName (cfg.gameSettings.map GameSettings.folderName) = true := by
    intro g hg
    exact (List.mem_filter.mp hg).2
  have h3K : distinctStrs ((s.installedGames.filter (fun g => memStr g.folderName
      (cfg.gameSettings.map GameSettings.folderName))).map Game.folderName) = true :=
    distinctStrs_of_sublist
      (List.Sublist.map Game.folderName (List.filter_sublist s.installedGames)) h3
  have hG1 : loadGames installed cfg s =
      (s.installedGames.filter (fun g => memStr g.folderName
          (cfg.gameSettings.map GameSettings.folderName))).map
        (updByConfig cfg.gameSettings) ++
      appendsFor installed ((s.installedGames.filter (fun g => memStr g.folderName
          (cfg.gameSettings.map GameSettings.folderName))).map Game.folderName)
        cfg.gameSettings := by
    rw [loadGames_eq, hchar]
    simp only [removeDeleted]
    rw [List.filter_append, filter_map_updByConfig,
      filter_all_true _ _ hAcn,
      appendsFor_congr installed _ _ cfg.gameSettings hcongr]
  have hG1mem : ∀ g ∈ (s.installedGames.filter (fun g => memStr g.folderName
      (cfg.gameSettings.map GameSettings.folderName))).map (updByConfig cfg.gameSettings) ++
      appendsFor installed ((s.installedGames.filter (fun g => memStr g.folderName
        (cfg.gameSettings.map GameSettings.folderName))).map Game.folderName)
        cfg.gameSettings,
      memStr g.folderName (cfg.gameSettings.map GameSettings.folderName) = true := by
    intro g hg
    rcases List.mem_append.mp hg with h | h
    · obtain ⟨e, he, rfl⟩ := List.mem_map.mp h
      rw [updByConfig_folderName]
      exact h1K e he
    · obtain ⟨gs', hgs', rfl, _, _⟩ := appendsFor_mem installed _ cfg.gameSettings g h
      rw [memStr_iff, mkGame_folderName]
      exact List.mem_map_of_mem GameSettings.folderName hgs'
  have hfix := claimUpdatePass_fix installed cfg.gameSettings
    ((s.installedGames.filter (fun g => memStr g.folderName
        (cfg.gameSettings.map GameSettings.folderName))).map
      (updByConfig cfg.gameSettings) ++
      appendsFor installed ((s.installedGames.filter (fun g => memStr g.folderName
        (cfg.gameSettings.map GameSettings.folderName))).map Game.folderName)
        cfg.gameSettings)
    (fixpoint_G1 installed cfg.gameSettings
      (s.installedGames.filter (fun g => memStr g.folderName
        (cfg.gameSettings.map GameSettings.folderName))) h1K h2 h3K)
  have hG2 : loadGames installed cfg (load installed cfg s).1 =
      (s.installedGames.filter (fun g => memStr g.folderName
        (cfg.gameSettings.map GameSettings.folderName))).map
        (updByConfig cfg.gameSettings) ++
      appendsFor installed ((s.installedGames.filter (fun g => memStr g.folderName
        (cfg.gameSettings.map GameSettings.folderName))).map Game.folderName)
        cfg.gameSettings := by
    rw [loadGames_eq, load_installedGames, hG1, hfix]
    exact removeDeleted_all _ _ hG1mem
  exact load_twice_same_games installed cfg s (by rw [hG2, hG1])

/-- Claim C8 witness: registry {GameA, GameB} with the configuration listing
only GameA — the first load removes the stale GameB entry — and loading
twice equals loading once on the registry, the selection and the counter. -/
theorem c8_witness :
    (load allInstalled configOnlyA
        (load allInstalled configOnlyA stateAB).1).1.installedGames =
      (load allInstalled configOnlyA stateAB).1.installedGames ∧
    (load allInstalled configOnlyA
        (load allInstalled configOnlyA stateAB).1).1.currentGame =
      (load allInstalled configOnlyA stateAB).1.currentGame ∧
    (load allInstalled configOnlyA
        (load allInstalled configOnlyA stateAB).1).1.unappliedChangeCounter =
      (load allInstalled configOnlyA stateAB).1.unappliedChangeCounter :=
  c8_amended allInstalled configOnlyA stateAB (by decide) (by decide) (by decide)

/-- Claim C1, counterexample. Registry {GameA, GameB, GameC} with GameB
selected; `load` with a configuration keeping only GameA and GameC removes
the selected entry, yet returns successfully with the selection at position
1 — now silently denoting GameC — while the selection algorithm, had it been
re-run as the claim requires, would select position 0 (GameA). -/
theorem c1_counterexample :
    getCurrentGame stateABC = some (mkGame settingsB) ∧
    (load allInstalled configAC stateABC).2 = none ∧
    (load allInstalled configAC stateABC).1.installedGames =
      [mkGame settingsA, mkGame settingsC] ∧
    (load allInstalled configAC stateABC).1.currentGame = 1 ∧
    getCurrentGame (load allInstalled configAC stateABC).1 = some (mkGame settingsC) ∧
    mkGame settingsB ∉ (load allInstalled configAC stateABC).1.installedGames ∧
    (selectGame configAC emptyStr (load allInstalled configAC stateABC).1).1.currentGame = 0 := by
  decide

/-- Claim C2, counterexample. First: a non-empty preferred name "SKYRIM"
matches the entry "Skyrim" case-insensitively (the claim selects position 1),
but the code compares case-sensitively and falls back to the first entry
(position 0). Second: the configured default "GameC" matches no entry while
the last-used "GameB" does (the claim selects position 1), but the code
substitutes the default without checking for a match and never consults the
last-used game, again selecting position 0. -/
theorem c2_counterexample :
    (selectGame (autoConfig []) "SKYRIM" stateASky).1.currentGame = 0 ∧
    claimChainIdx "SKYRIM" autoSentinel autoSentinel stateASky.installedGames = some 1 ∧
    (selectGame configDefC emptyStr stateAB).1.currentGame = 0 ∧
    claimChainIdx emptyStr "GameC" "GameB" stateAB.installedGames = some 1 := by
  decide

/-- Claim C5, counterexample. The registry entry "Skyrim" matches the
configured descriptor "SKYRIM" case-insensitively, so by the claim it is
updated in place and kept (as `claimReconcileCI` computes); the code updates
it and then removes it, because the removal pass compares the entry's stored
identity against the seen set by exact string equality. -/
theorem c5_counterexample :
    matchesSettings (mkGame skyrimLower) skyrimUpper = true ∧
    (load allInstalled upperConfig stateOneSkyrim).1.installedGames = [] ∧
    claimReconcileCI allInstalled [skyrimUpper] [mkGame skyrimLower] =
      [setGameSettings (mkGame skyrimLower) skyrimUpper] := by
  decide

/-- Claim C8, counterexample. With registry {"Skyrim"} and configuration
{"SKYRIM"} (installed), the first `load` empties the registry (the
case-mismatched entry is matched in place, then removed by the exact-string
removal pass) and the second `load` re-detects and appends the game: the
registry after two calls differs from the registry after one. -/
theorem c8_counterexample :
    (load allInstalled upperConfig (load allInstalled upperConfig stateOneSkyrim).1).1.installedGames ≠
      (load allInstalled upperConfig stateOneSkyrim).1.installedGames := by
  decide

/-- Claim C3: evaluation at the failing input. `changeGame "skyrim"` on a
registry holding "Skyrim" succeeds case-insensitively (position 0), but
`changeGame "oblivion"` sets the selection to the end position and the
unconditional `currentGame_->Init()` dereferences it — no `GameNotFound`
error exists in the code, and the previous selection is overwritten. -/
theorem c3_eval :
    (changeGame "skyrim" stateOneSkyrim).1.currentGame = 0 ∧
    (changeGame "skyrim" stateOneSkyrim).2 = none ∧
    (changeGame "oblivion" stateOneSkyrim).1.currentGame =
      stateOneSkyrim.installedGames.length ∧
    (changeGame "oblivion" stateOneSkyrim).2 = some LootError.invalidDereference := by
  decide

/-- Claim C4: evaluation at the failing input. In the freshly-constructed
state the selection is the end position, and `getCurrentGame` dereferences it
unchecked (`none` in the model): there is no `NoGameSelected` check in the
code. -/
theorem c4_eval :
    LootState.initial.currentGame = LootState.initial.installedGames.length ∧
    getCurrentGame LootState.initial = none := by
  decide

/-- Claim C7: evaluation around the failing scenario. A caller obtains the
handle to GameB; a `load` whose configuration omits GameB then erases that
entry from the registry while the handle is still outstanding — in the C++
the reference returned by `getCurrentGame` (a bare alias, the lock released
at return) is left dangling. -/
theorem c7_eval :
    getCurrentGame stateAB1 = some (mkGame settingsB) ∧
    (load allInstalled configOnlyA stateAB1).1.installedGames = [mkGame settingsA] ∧
    mkGame settingsB ∉ (load allInstalled configOnlyA stateAB1).1.installedGames := by
  decide
